import Mathlib

/-!
# Verification of the NSX-V edge-gateway XML payload types

This development embeds the XML data-transfer types declared in
`types/v56/nsxv_types.go` (firewall configuration, load-balancer
components, NAT rules, IP sets) together with the serialization
discipline applied to them, and proves/refutes the specified
round-trip, omission and opaque-fragment properties.

The repository itself contains only the struct declarations with their
`xml:"..."` field tags; the (de)serializer they configure lives outside
the repository.  Following the specification ("standard tree-structured
markup rules", the omit-if-empty and presence-marker rules of §4.1, and
the verbatim `innerxml` mechanism), the encoder and decoder are modelled
here at the byte (character) level:

* `encode` emits, for each struct, its fixed element name and then its
  fields in declaration order; a field tagged `omitempty` with a
  zero-valued string/int/slice is skipped; a nil pointer field is always
  skipped; a pointer field that is set is always emitted, even when the
  pointed-to value is `false`/`0`; a struct-typed field is never
  considered empty, so `omitempty` has no effect on it; string content
  is entity-escaped; an `innerxml` field's stored text is emitted
  verbatim.
* `decode` parses the outer tag structure, dispatches child elements by
  name (unknown children are skipped over), unescapes character data for
  modeled string fields, parses bool/int content, and captures the full
  raw inner text of `innerxml` fields without interpreting it.

Simplifications (none of the verified claims depends on them):
attributes, self-closing tags, comments, CDATA and processing
instructions are not modelled; all decode failures are collapsed into
the single `MalformedInputError` of the specification's error taxonomy.
-/

set_option maxHeartbeats 1000000
set_option maxRecDepth 100000
set_option linter.unusedVariables false

/-! ## Character-level utilities -/

/-- Split a character list at the first character satisfying `p`; the
delimiter (if any) stays at the head of the second component. -/
def splitUntil (p : Char → Bool) : List Char → List Char × List Char
  | [] => ([], [])
  | c :: cs =>
    if p c then ([], c :: cs)
    else
      let r := splitUntil p cs
      (c :: r.1, r.2)

theorem splitUntil_append (p : Char → Bool) (xs : List Char) (y : Char) (ys : List Char)
    (hxs : ∀ x ∈ xs, p x = false) (hy : p y = true) :
    splitUntil p (xs ++ y :: ys) = (xs, y :: ys) := by
  induction xs with
  | nil => simp [splitUntil, hy]
  | cons a as ih =>
    have ha : p a = false := hxs a (by simp)
    simp [splitUntil, ha, ih (fun x hx => hxs x (by simp [hx]))]

theorem splitUntil_nil (p : Char → Bool) (xs : List Char)
    (hxs : ∀ x ∈ xs, p x = false) :
    splitUntil p xs = (xs, []) := by
  induction xs with
  | nil => simp [splitUntil]
  | cons a as ih =>
    have ha : p a = false := hxs a (by simp)
    simp [splitUntil, ha, ih (fun x hx => hxs x (by simp [hx]))]

/-- Consume an expected literal prefix. -/
def expectL (lit cs : List Char) : Option (List Char) :=
  if lit.isPrefixOf cs then some (cs.drop lit.length) else none

theorem isPrefixOf_append_self (lit rest : List Char) :
    lit.isPrefixOf (lit ++ rest) = true := by
  induction lit with
  | nil => simp [List.isPrefixOf]
  | cons a as ih => simp [List.isPrefixOf, ih]

theorem expectL_append (lit rest : List Char) :
    expectL lit (lit ++ rest) = some rest := by
  simp [expectL, isPrefixOf_append_self, List.drop_left]

/-! ## XML entity escaping (as performed by the encoder on character data) -/

/-- Escape a single character of character data: the five XML special
characters and the three whitespace control characters become entity
references, everything else passes through. -/
def escChar (c : Char) : List Char :=
  if c = '"' then "&#34;".data
  else if c = '\'' then "&#39;".data
  else if c = '&' then "&amp;".data
  else if c = '<' then "&lt;".data
  else if c = '>' then "&gt;".data
  else if c = '\t' then "&#x9;".data
  else if c = '\n' then "&#xA;".data
  else if c = '\r' then "&#xD;".data
  else [c]

def escape : List Char → List Char
  | [] => []
  | c :: cs => escChar c ++ escape cs

theorem escChar_not_lt (c : Char) : '<' ∉ escChar c := by
  unfold escChar
  split_ifs with h1 h2 h3 h4 h5 h6 h7 h8
  · decide
  · decide
  · decide
  · decide
  · decide
  · decide
  · decide
  · decide
  · simp only [List.mem_singleton]
    exact fun h => h4 h.symm

theorem escape_not_lt (cs : List Char) : ∀ x ∈ escape cs, (x == '<') = false := by
  induction cs with
  | nil => simp [escape]
  | cons c cs ih =>
    intro x hx
    simp [escape] at hx
    rcases hx with hx | hx
    · have := escChar_not_lt c
      simp only [beq_eq_false_iff_ne, ne_eq]
      rintro rfl; exact this hx
    · exact ih x hx

/-! ## Decimal printing and parsing of integers -/

def digitChar : Nat → Char
  | 0 => '0'
  | 1 => '1'
  | 2 => '2'
  | 3 => '3'
  | 4 => '4'
  | 5 => '5'
  | 6 => '6'
  | 7 => '7'
  | 8 => '8'
  | _ => '9'

def digitVal (c : Char) : Nat := c.toNat - 48

def isDigitCh (c : Char) : Bool := 48 ≤ c.toNat && c.toNat ≤ 57

/-- Decimal digits of `n`, most significant first (fuel-based so that
the definition evaluates by kernel reduction; `n + 1` units of fuel
always suffice since the argument drops by a factor of ten). -/
def natDigitsAux : Nat → Nat → List Char
  | 0, _ => []
  | fuel + 1, n =>
    if n < 10 then [digitChar n]
    else natDigitsAux fuel (n / 10) ++ [digitChar (n % 10)]

def natDigits (n : Nat) : List Char := natDigitsAux (n + 1) n

theorem digitVal_digitChar (d : Nat) (h : d < 10) : digitVal (digitChar d) = d := by
  interval_cases d <;> rfl

theorem isDigitCh_digitChar (d : Nat) (h : d < 10) : isDigitCh (digitChar d) = true := by
  interval_cases d <;> rfl

theorem natDigitsAux_ne_nil (fuel n : Nat) (h : n < fuel) : natDigitsAux fuel n ≠ [] := by
  cases fuel with
  | zero => omega
  | succ f =>
    simp only [natDigitsAux]
    split <;> simp

theorem natDigits_ne_nil (n : Nat) : natDigits n ≠ [] :=
  natDigitsAux_ne_nil _ _ (Nat.lt_succ_self n)

theorem natDigitsAux_all_digit :
    ∀ fuel n, n < fuel → ∀ c ∈ natDigitsAux fuel n, isDigitCh c = true := by
  intro fuel
  induction fuel with
  | zero => intro n h; omega
  | succ f ih =>
    intro n h c hc
    simp only [natDigitsAux] at hc
    split at hc
    next h10 =>
      simp at hc
      subst hc
      exact isDigitCh_digitChar n h10
    next h10 =>
      simp at hc
      rcases hc with hc | hc
      · exact ih (n / 10) (by omega) c hc
      · subst hc
        exact isDigitCh_digitChar (n % 10) (Nat.mod_lt _ (by omega))

theorem natDigits_all_digit (n : Nat) : ∀ c ∈ natDigits n, isDigitCh c = true :=
  natDigitsAux_all_digit _ _ (Nat.lt_succ_self n)

def digitsVal (cs : List Char) : Nat :=
  cs.foldl (fun a c => 10 * a + digitVal c) 0

theorem digitsVal_append_single (xs : List Char) (c : Char) :
    digitsVal (xs ++ [c]) = 10 * digitsVal xs + digitVal c := by
  simp [digitsVal, List.foldl_append]

theorem digitsVal_natDigitsAux :
    ∀ fuel n, n < fuel → digitsVal (natDigitsAux fuel n) = n := by
  intro fuel
  induction fuel with
  | zero => intro n h; omega
  | succ f ih =>
    intro n h
    simp only [natDigitsAux]
    split
    next h10 => simp [digitsVal, digitVal_digitChar n h10]
    next h10 =>
      rw [digitsVal_append_single, ih (n / 10) (by omega),
        digitVal_digitChar (n % 10) (Nat.mod_lt _ (by omega))]
      omega

theorem digitsVal_natDigits (n : Nat) : digitsVal (natDigits n) = n :=
  digitsVal_natDigitsAux _ _ (Nat.lt_succ_self n)

/-- Parse a complete run of decimal digits (the whole input must be
digits, as `strconv.ParseInt` requires). -/
def parseNatChars (cs : List Char) : Option Nat :=
  if cs = [] then none
  else if cs.all isDigitCh then some (digitsVal cs) else none

theorem parseNatChars_natDigits (n : Nat) :
    parseNatChars (natDigits n) = some n := by
  have h1 := natDigits_ne_nil n
  have h2 := natDigits_all_digit n
  simp [parseNatChars, h1, List.all_eq_true.mpr h2, digitsVal_natDigits]

/-- Decimal representation of an `int` value, as `strconv.FormatInt`
produces it: a `-` sign followed by the digits for negative values. -/
def intChars (i : Int) : List Char :=
  if i < 0 then '-' :: natDigits (-i).toNat else natDigits i.toNat

/-- Parse a base-10 integer with an optional sign, as
`strconv.ParseInt(s, 10, …)` does. -/
def parseIntChars (cs : List Char) : Option Int :=
  match cs with
  | [] => none
  | c :: rest =>
    if c = '-' then (parseNatChars rest).map (fun n => -(n : Int))
    else if c = '+' then (parseNatChars rest).map (fun n => (n : Int))
    else (parseNatChars (c :: rest)).map (fun n => (n : Int))

theorem natDigits_head_digit (n : Nat) :
    ∃ c cs, natDigits n = c :: cs ∧ isDigitCh c = true := by
  rcases h : natDigits n with _ | ⟨c, cs⟩
  · exact absurd h (natDigits_ne_nil n)
  · exact ⟨c, cs, rfl, natDigits_all_digit n c (by simp [h])⟩

theorem parseIntChars_intChars (i : Int) : parseIntChars (intChars i) = some i := by
  unfold intChars
  split_ifs with h
  · have hx : (((-i).toNat : ℤ)) = -i := Int.toNat_of_nonneg (by omega)
    simp [parseIntChars, parseNatChars_natDigits, hx]
  · obtain ⟨c, cs, hc, hd⟩ := natDigits_head_digit i.toNat
    have h1 : ¬ c = '-' := by
      intro he; rw [he] at hd; exact absurd hd (by decide)
    have h2 : ¬ c = '+' := by
      intro he; rw [he] at hd; exact absurd hd (by decide)
    have hx : ((i.toNat : ℤ)) = i := Int.toNat_of_nonneg (by omega)
    rw [hc]
    simp [parseIntChars, h1, h2, ← hc, parseNatChars_natDigits, hx]

theorem intChars_all_sign_digit (i : Int) :
    ∀ c ∈ intChars i, c = '-' ∨ isDigitCh c = true := by
  unfold intChars
  split_ifs with h
  · intro c hc
    simp at hc
    rcases hc with hc | hc
    · exact Or.inl hc
    · exact Or.inr (natDigits_all_digit _ c hc)
  · intro c hc
    exact Or.inr (natDigits_all_digit _ c hc)

/-! ## Whitespace trimming and Go-style bool literals -/

def isXmlSpace (c : Char) : Bool := c = ' ' || c = '\t' || c = '\n' || c = '\r'

/-- ASCII variant of the `strings.TrimSpace` the decoder applies to
bool/int character data before parsing it. -/
def xmlTrim (cs : List Char) : List Char :=
  ((cs.dropWhile isXmlSpace).reverse.dropWhile isXmlSpace).reverse

theorem dropWhile_eq_self_of_head (cs : List Char)
    (h : ∀ c ∈ cs, isXmlSpace c = false) : cs.dropWhile isXmlSpace = cs := by
  cases cs with
  | nil => rfl
  | cons c cs => simp [List.dropWhile, h c (by simp)]

theorem xmlTrim_eq_self (cs : List Char) (h : ∀ c ∈ cs, isXmlSpace c = false) :
    xmlTrim cs = cs := by
  unfold xmlTrim
  rw [dropWhile_eq_self_of_head cs h,
    dropWhile_eq_self_of_head cs.reverse (fun c hc => h c (List.mem_reverse.mp hc)),
    List.reverse_reverse]

theorem not_space_of_digit (c : Char) (h : isDigitCh c = true) : isXmlSpace c = false := by
  have h' : 48 ≤ c.toNat ∧ c.toNat ≤ 57 := by simpa [isDigitCh] using h
  cases hsp : isXmlSpace c with
  | false => rfl
  | true =>
    exfalso
    have hd : c = ' ' ∨ c = '\t' ∨ c = '\n' ∨ c = '\r' := by
      simpa [isXmlSpace, or_assoc] using hsp
    rcases hd with rfl | rfl | rfl | rfl <;> exact absurd h' (by decide)

theorem xmlTrim_intChars (i : Int) : xmlTrim (intChars i) = intChars i := by
  refine xmlTrim_eq_self _ (fun c hc => ?_)
  rcases intChars_all_sign_digit i c hc with h | h
  · subst h; rfl
  · exact not_space_of_digit c h

/-- The set of literals accepted by `strconv.ParseBool`. -/
def parseGoBool (cs : List Char) : Option Bool :=
  if cs = "1".data ∨ cs = "t".data ∨ cs = "T".data ∨ cs = "TRUE".data ∨
      cs = "true".data ∨ cs = "True".data then some true
  else if cs = "0".data ∨ cs = "f".data ∨ cs = "F".data ∨ cs = "FALSE".data ∨
      cs = "false".data ∨ cs = "False".data then some false
  else none

/-- Encoder output for a bool field (`encoding/xml` emits
`strconv.FormatBool`). -/
def boolChars (b : Bool) : List Char := if b then "true".data else "false".data

theorem parseGoBool_boolChars (b : Bool) :
    parseGoBool (xmlTrim (boolChars b)) = some b := by
  cases b <;> decide

/-! ## Entity unescaping (decoder side) -/

def charOfCode (n : Nat) : Option Char :=
  if n.isValidChar then some (Char.ofNat n) else none

def isHexDigitCh (c : Char) : Bool :=
  (48 ≤ c.toNat && c.toNat ≤ 57) || (97 ≤ c.toNat && c.toNat ≤ 102) ||
    (65 ≤ c.toNat && c.toNat ≤ 70)

def hexVal (c : Char) : Nat :=
  if c.toNat ≤ 57 then c.toNat - 48
  else if c.toNat ≤ 70 then c.toNat - 55
  else c.toNat - 87

def parseHexChars (cs : List Char) : Option Nat :=
  if cs = [] then none
  else if cs.all isHexDigitCh then
    some (cs.foldl (fun a c => 16 * a + hexVal c) 0)
  else none

/-- Resolve one entity reference body (the text between `&` and `;`):
the five predefined named entities plus decimal and hexadecimal
character references. -/
def entVal (ent : List Char) : Option Char :=
  if ent = "lt".data then some '<'
  else if ent = "gt".data then some '>'
  else if ent = "amp".data then some '&'
  else if ent = "apos".data then some '\''
  else if ent = "quot".data then some '"'
  else
    match ent with
    | [] => none
    | c :: more =>
      if c = '#' then
        match more with
        | [] => none
        | c2 :: hex =>
          if c2 = 'x' || c2 = 'X' then (parseHexChars hex).bind charOfCode
          else (parseNatChars more).bind charOfCode
      else none

/-- Unescape character data: entity references are resolved, everything
else passes through; a malformed reference is an error. -/
def unescapeAux : Nat → List Char → Option (List Char)
  | 0, _ => none
  | _ + 1, [] => some []
  | fuel + 1, c :: cs =>
    if c = '&' then
      let s := splitUntil (fun x => x == ';') cs
      match s.2 with
      | [] => none
      | _ :: rest =>
        match entVal s.1 with
        | none => none
        | some ch => (unescapeAux fuel rest).map (ch :: ·)
    else (unescapeAux fuel cs).map (c :: ·)

def unescapeChars (cs : List Char) : Option (List Char) :=
  unescapeAux (cs.length + 1) cs

theorem unescapeAux_entity (ent rest : List Char) (c : Char)
    (h1 : ∀ x ∈ ent, (x == ';') = false) (h2 : entVal ent = some c) (fuel : Nat) :
    unescapeAux (fuel + 1) ('&' :: (ent ++ ';' :: rest)) =
      (unescapeAux fuel rest).map (c :: ·) := by
  have hs : splitUntil (fun x => x == ';') (ent ++ ';' :: rest) = (ent, ';' :: rest) :=
    splitUntil_append _ _ _ _ h1 (by simp)
  simp [unescapeAux, hs, h2]

theorem unescapeAux_escape (cs : List Char) :
    ∀ fuel, (escape cs).length < fuel → unescapeAux fuel (escape cs) = some cs := by
  induction cs with
  | nil =>
    intro fuel hf
    cases fuel with
    | zero => omega
    | succ f => rfl
  | cons c cs ih =>
    intro fuel hf
    cases fuel with
    | zero => omega
    | succ f =>
      by_cases h1 : c = '"'
      · subst h1
        simp only [escape, escChar, List.length_append, if_pos rfl] at hf
        rw [show escape ('"' :: cs) = '&' :: ("#34".data ++ ';' :: escape cs) by
          simp [escape, escChar]]
        rw [unescapeAux_entity "#34".data (escape cs) '"' (by decide) (by decide) f, ih f (by simp at hf; omega)]
        rfl
      by_cases h2 : c = '\''
      · subst h2
        simp only [escape, escChar, List.length_append, if_neg h1, if_pos rfl] at hf
        rw [show escape ('\'' :: cs) = '&' :: ("#39".data ++ ';' :: escape cs) by
          simp [escape, escChar]]
        rw [unescapeAux_entity "#39".data (escape cs) '\'' (by decide) (by decide) f, ih f (by simp at hf; omega)]
        rfl
      by_cases h3 : c = '&'
      · subst h3
        simp only [escape, escChar, List.length_append, if_neg h1, if_neg h2, if_pos rfl] at hf
        rw [show escape ('&' :: cs) = '&' :: ("amp".data ++ ';' :: escape cs) by
          simp [escape, escChar, h1, h2]]
        rw [unescapeAux_entity "amp".data (escape cs) '&' (by decide) (by decide) f, ih f (by simp at hf; omega)]
        rfl
      by_cases h4 : c = '<'
      · subst h4
        simp only [escape, escChar, List.length_append, if_neg h1, if_neg h2, if_neg h3,
          if_pos rfl] at hf
        rw [show escape ('<' :: cs) = '&' :: ("lt".data ++ ';' :: escape cs) by
          simp [escape, escChar, h1, h2, h3]]
        rw [unescapeAux_entity "lt".data (escape cs) '<' (by decide) (by decide) f, ih f (by simp at hf; omega)]
        rfl
      by_cases h5 : c = '>'
      · subst h5
        simp only [escape, escChar, List.length_append, if_neg h1, if_neg h2, if_neg h3,
          if_neg h4, if_pos rfl] at hf
        rw [show escape ('>' :: cs) = '&' :: ("gt".data ++ ';' :: escape cs) by
          simp [escape, escChar, h1, h2, h3, h4]]
        rw [unescapeAux_entity "gt".data (escape cs) '>' (by decide) (by decide) f, ih f (by simp at hf; omega)]
        rfl
      by_cases h6 : c = '\t'
      · subst h6
        simp only [escape, escChar, List.length_append, if_neg h1, if_neg h2, if_neg h3,
          if_neg h4, if_neg h5, if_pos rfl] at hf
        rw [show escape ('\t' :: cs) = '&' :: ("#x9".data ++ ';' :: escape cs) by
          simp [escape, escChar, h1, h2, h3, h4, h5]]
        rw [unescapeAux_entity "#x9".data (escape cs) '\t' (by decide) (by decide) f, ih f (by simp at hf; omega)]
        rfl
      by_cases h7 : c = '\n'
      · subst h7
        simp only [escape, escChar, List.length_append, if_neg h1, if_neg h2, if_neg h3,
          if_neg h4, if_neg h5, if_neg h6, if_pos rfl] at hf
        rw [show escape ('\n' :: cs) = '&' :: ("#xA".data ++ ';' :: escape cs) by
          simp [escape, escChar, h1, h2, h3, h4, h5, h6]]
        rw [unescapeAux_entity "#xA".data (escape cs) '\n' (by decide) (by decide) f, ih f (by simp at hf; omega)]
        rfl
      by_cases h8 : c = '\r'
      · subst h8
        simp only [escape, escChar, List.length_append, if_neg h1, if_neg h2, if_neg h3,
          if_neg h4, if_neg h5, if_neg h6, if_neg h7, if_pos rfl] at hf
        rw [show escape ('\r' :: cs) = '&' :: ("#xD".data ++ ';' :: escape cs) by
          simp [escape, escChar, h1, h2, h3, h4, h5, h6, h7]]
        rw [unescapeAux_entity "#xD".data (escape cs) '\r' (by decide) (by decide) f, ih f (by simp at hf; omega)]
        rfl
      · have hesc : escape (c :: cs) = c :: escape cs := by
          simp [escape, escChar, h1, h2, h3, h4, h5, h6, h7, h8]
        rw [hesc] at hf ⊢
        simp only [unescapeAux, if_neg h3]
        rw [ih f (by simp at hf; omega)]
        rfl

theorem unescapeAux_no_amp (cs : List Char) (h : ∀ c ∈ cs, c ≠ '&') :
    ∀ fuel, cs.length < fuel → unescapeAux fuel cs = some cs := by
  induction cs with
  | nil =>
    intro fuel hf
    cases fuel with
    | zero => omega
    | succ f => rfl
  | cons c cs ih =>
    intro fuel hf
    cases fuel with
    | zero => omega
    | succ f =>
      simp only [unescapeAux, if_neg (h c (by simp))]
      rw [ih (fun x hx => h x (by simp [hx])) f (by simp at hf; omega)]
      rfl

theorem unescapeChars_escape (cs : List Char) :
    unescapeChars (escape cs) = some cs :=
  unescapeAux_escape cs _ (Nat.lt_succ_self _)

theorem unescapeChars_no_amp (cs : List Char) (h : ∀ c ∈ cs, c ≠ '&') :
    unescapeChars cs = some cs :=
  unescapeAux_no_amp cs h _ (Nat.lt_succ_self _)

theorem unescapeChars_intChars (i : Int) :
    unescapeChars (intChars i) = some (intChars i) := by
  refine unescapeChars_no_amp _ (fun c hc => ?_)
  rcases intChars_all_sign_digit i c hc with h | h
  · subst h; decide
  · intro he
    subst he
    exact absurd h (by decide)


/-! ## Tag tokenization -/

/-- Read one tag token: the characters after `<` up to the closing `>`.
Attribute-free, as the modelled payloads are. -/
def readTag (cs : List Char) : Option (List Char × List Char) :=
  let s := splitUntil (fun c => c == '>') cs
  match s.2 with
  | [] => none
  | _ :: rest => some (s.1, rest)

theorem readTag_append (tag : List Char) (rest : List Char)
    (h : ∀ c ∈ tag, (c == '>') = false) :
    readTag (tag ++ '>' :: rest) = some (tag, rest) := by
  have hs := splitUntil_append (fun c => c == '>') tag '>' rest h (by simp)
  simp [readTag, hs]

/-- Character data up to the next `<`, with entities resolved. -/
def readText (cs : List Char) : Option (List Char × List Char) :=
  let s := splitUntil (fun c => c == '<') cs
  (unescapeChars s.1).map ((·, s.2))

/-- Content of a simple (string/int/bool) element: character data
followed by the matching end tag. -/
def readSimple (tag : List Char) (cs : List Char) : Option (List Char × List Char) :=
  (readText cs).bind fun p =>
    (expectL ('<' :: '/' :: tag ++ ['>']) p.2).map fun r => (p.1, r)

theorem readSimple_raw (tag ws ws' rest : List Char)
    (h1 : ∀ c ∈ ws, (c == '<') = false) (h2 : unescapeChars ws = some ws') :
    readSimple tag (ws ++ ('<' :: ('/' :: (tag ++ ('>' :: rest))))) = some (ws', rest) := by
  have hs : splitUntil (fun c => c == '<') (ws ++ ('<' :: ('/' :: (tag ++ ('>' :: rest)))))
      = (ws, '<' :: ('/' :: (tag ++ ('>' :: rest)))) :=
    splitUntil_append (fun c => c == '<') ws '<' ('/' :: (tag ++ ('>' :: rest))) h1 (by simp)
  have he : expectL ('<' :: ('/' :: (tag ++ ['>']))) ('<' :: ('/' :: (tag ++ ('>' :: rest))))
      = some rest := by
    have h := expectL_append (('<' :: '/' :: tag) ++ ['>']) rest
    simpa using h
  simp [readSimple, readText, hs, h2, he]

theorem readSimple_escape (tag v rest : List Char) :
    readSimple tag (escape v ++ ('<' :: ('/' :: (tag ++ ('>' :: rest)))))
      = some (v, rest) :=
  readSimple_raw tag (escape v) v rest (escape_not_lt v) (unescapeChars_escape v)

theorem intChars_not_lt (i : Int) : ∀ c ∈ intChars i, (c == '<') = false := by
  intro c hc
  rcases intChars_all_sign_digit i c hc with h | h
  · subst h; decide
  · simp only [beq_eq_false_iff_ne, ne_eq]
    intro he; subst he
    exact absurd h (by decide)

theorem readSimple_intChars (tag : List Char) (i : Int) (rest : List Char) :
    readSimple tag (intChars i ++ ('<' :: ('/' :: (tag ++ ('>' :: rest)))))
      = some (intChars i, rest) :=
  readSimple_raw tag (intChars i) (intChars i) rest (intChars_not_lt i)
    (unescapeChars_intChars i)

theorem readSimple_boolChars (tag : List Char) (b : Bool) (rest : List Char) :
    readSimple tag (boolChars b ++ ('<' :: ('/' :: (tag ++ ('>' :: rest)))))
      = some (boolChars b, rest) := by
  cases b
  · exact readSimple_raw tag _ _ rest (by decide) (by decide)
  · exact readSimple_raw tag _ _ rest (by decide) (by decide)

/-! ## Verbatim capture of `innerxml` fragments

On decode, a field whose tag carries `innerxml` is not parsed: the raw
text up to the matching end tag of the enclosing element is captured
unchanged.  `captureAux` scans for the matching end tag, keeping a
nesting count for same-named inner elements, and returns the raw
captured characters together with the input following the end tag. -/

def captureAux (name : List Char) : Nat → Nat → List Char → Option (List Char × List Char)
  | 0, _, _ => none
  | _ + 1, _, [] => none
  | fuel + 1, depth, c :: cs =>
    if c = '<' then
      match readTag cs with
      | none => none
      | some (tag, rest) =>
        if tag = '/' :: name then
          if depth = 0 then some ([], rest)
          else (captureAux name fuel (depth - 1) rest).map
            (fun r => ('<' :: tag ++ '>' :: r.1, r.2))
        else if tag = name then
          (captureAux name fuel (depth + 1) rest).map
            (fun r => ('<' :: tag ++ '>' :: r.1, r.2))
        else
          (captureAux name fuel depth rest).map
            (fun r => ('<' :: tag ++ '>' :: r.1, r.2))
    else (captureAux name fuel depth cs).map (fun r => (c :: r.1, r.2))

def capture (name : List Char) (cs : List Char) : Option (List Char × List Char) :=
  captureAux name (cs.length + 1) 0 cs

/-- Well-formed XML fragments (attribute-free): `ch c f` is one
character of character data followed by `f`; `elem n children f` is an
element followed by `f`.  Such fragments are exactly the shape of inner
content that the opaque-fragment mechanism is designed to carry. -/
inductive Frag : Type
  | nil : Frag
  | ch : Char → Frag → Frag
  | elem : String → Frag → Frag → Frag
deriving Repr, DecidableEq

def Frag.render : Frag → List Char
  | .nil => []
  | .ch c f => c :: f.render
  | .elem n children f =>
    '<' :: n.data ++ '>' :: children.render ++ '<' :: '/' :: n.data ++ '>' :: f.render

def goodName (n : List Char) : Bool :=
  (n != []) && n.all (fun c => !(c == '>') && !(c == '/') && !(c == '<'))

def Frag.wf : Frag → Bool
  | .nil => true
  | .ch c f => !(c == '<') && f.wf
  | .elem n children f => goodName n.data && (children.wf && f.wf)

theorem goodName_spec (n : List Char) (h : goodName n = true) :
    n ≠ [] ∧ (∀ c ∈ n, (c == '>') = false) ∧ (∀ c ∈ n, ¬ c = '/') := by
  simp only [goodName, Bool.and_eq_true, bne_iff_ne, ne_eq, List.all_eq_true] at h
  obtain ⟨h1, h2⟩ := h
  refine ⟨h1, fun c hc => ?_, fun c hc => ?_⟩
  · have h3 := h2 c hc
    simp only [Bool.and_eq_true, Bool.not_eq_true'] at h3
    exact h3.1.1
  · have h3 := h2 c hc
    simp only [Bool.and_eq_true, Bool.not_eq_true'] at h3
    simpa using h3.1.2

theorem readTag_close (name : List Char) (hngt : ∀ c ∈ name, (c == '>') = false)
    (rest : List Char) :
    readTag ('/' :: (name ++ ('>' :: rest))) = some ('/' :: name, rest) := by
  have hslash : ∀ c ∈ ('/' :: name), (c == '>') = false := by
    intro c hc
    rcases List.mem_cons.mp hc with h | h
    · subst h; decide
    · exact hngt c h
  have h := readTag_append ('/' :: name) rest hslash
  simpa using h

theorem captureAux_close (name : List Char) (hngt : ∀ c ∈ name, (c == '>') = false)
    (rest : List Char) :
    ∀ fuel, ('<' :: ('/' :: (name ++ ('>' :: rest)))).length < fuel →
      captureAux name fuel 0 ('<' :: ('/' :: (name ++ ('>' :: rest)))) = some ([], rest) := by
  intro fuel hf
  cases fuel with
  | zero => simp at hf
  | succ fz =>
    simp [captureAux, readTag_close name hngt rest]

theorem captureAux_close_pos (name : List Char)
    (hngt : ∀ c ∈ name, (c == '>') = false) (d : Nat) (tail r1 r2 : List Char)
    (hrec : ∀ fuel, tail.length < fuel → captureAux name fuel d tail = some (r1, r2)) :
    ∀ fuel, ('<' :: ('/' :: (name ++ ('>' :: tail)))).length < fuel →
      captureAux name fuel (d + 1) ('<' :: ('/' :: (name ++ ('>' :: tail))))
        = some ('<' :: ('/' :: (name ++ ('>' :: r1))), r2) := by
  intro fuel hf
  cases fuel with
  | zero => simp at hf
  | succ fz =>
    have hrt2 := readTag_close name hngt tail
    have h := hrec fz (by simp at hf; omega)
    simp [captureAux, hrt2, h]

theorem captureAux_close_other (name other : List Char)
    (hngt : ∀ c ∈ other, (c == '>') = false)
    (hne2 : ¬ ('/' :: other) = '/' :: name) (hne3 : ¬ ('/' :: other) = name)
    (d : Nat) (tail r1 r2 : List Char)
    (hrec : ∀ fuel, tail.length < fuel → captureAux name fuel d tail = some (r1, r2)) :
    ∀ fuel, ('<' :: ('/' :: (other ++ ('>' :: tail)))).length < fuel →
      captureAux name fuel d ('<' :: ('/' :: (other ++ ('>' :: tail))))
        = some ('<' :: ('/' :: (other ++ ('>' :: r1))), r2) := by
  intro fuel hf
  cases fuel with
  | zero => simp at hf
  | succ fz =>
    have hrt2 := readTag_close other hngt tail
    have h := hrec fz (by simp at hf; omega)
    simp [captureAux, hrt2, hne2, hne3, h]

theorem captureAux_frag (name : List Char) (hname : '/' ∉ name) :
    ∀ (f : Frag), f.wf = true →
    ∀ (d : Nat) (rest : List Char) (res : List Char × List Char),
      (∀ fuel, rest.length < fuel → captureAux name fuel d rest = some res) →
      ∀ fuel, (f.render ++ rest).length < fuel →
        captureAux name fuel d (f.render ++ rest) = some (f.render ++ res.1, res.2) := by
  intro f
  induction f with
  | nil =>
    intro hw d rest res hrest fuel hf
    simpa [Frag.render] using hrest fuel (by simpa [Frag.render] using hf)
  | ch c f ih =>
    intro hw d rest res hrest fuel hf
    have hb : (!(c == '<') && Frag.wf f) = true := hw
    rw [Bool.and_eq_true, Bool.not_eq_true', beq_eq_false_iff_ne] at hb
    obtain ⟨hc, hwf⟩ := hb
    cases fuel with
    | zero => simp at hf
    | succ fz =>
      have hrec := ih hwf d rest res hrest fz
        (by simp [Frag.render] at hf; simp; omega)
      simp [Frag.render, captureAux, hc, hrec]
  | elem n children f ihc ihf =>
    intro hw d rest res hrest fuel hf
    have hb : (goodName n.data && (Frag.wf children && Frag.wf f)) = true := hw
    rw [Bool.and_eq_true, Bool.and_eq_true] at hb
    have hgn := hb.1
    have hwc := hb.2.1
    have hwf := hb.2.2
    obtain ⟨hnne, hngt, hnsl⟩ := goodName_spec n.data hgn
    cases fuel with
    | zero => simp at hf
    | succ fz =>
      have hrt : readTag (n.data ++ ('>' :: (children.render ++
            ('<' :: ('/' :: (n.data ++ ('>' :: (f.render ++ rest))))))))
          = some (n.data, children.render ++
            ('<' :: ('/' :: (n.data ++ ('>' :: (f.render ++ rest)))))) :=
        readTag_append n.data _ hngt
      have hne1 : ¬ n.data = '/' :: name := by
        intro he
        have hmem : '/' ∈ n.data := by rw [he]; simp
        exact hnsl '/' hmem rfl
      by_cases heq : n.data = name
      · have hngt' : ∀ c ∈ name, (c == '>') = false := by rw [← heq]; exact hngt
        have hrt' := hrt
        rw [heq] at hrt'
        have hne1' : ¬ name = '/' :: name := by
          intro he
          have hlen := congrArg List.length he
          simp at hlen
        have hcont := captureAux_close_pos name hngt' d (f.render ++ rest)
            (f.render ++ res.1) res.2 (ihf hwf d rest res hrest)
        have hmain := ihc hwc (d + 1)
            ('<' :: ('/' :: (name ++ ('>' :: (f.render ++ rest)))))
            ('<' :: ('/' :: (name ++ ('>' :: (f.render ++ res.1)))), res.2)
            hcont fz (by
              simp only [Frag.render, List.length_append, List.length_cons] at hf
              rw [heq] at hf
              simp only [List.length_append, List.length_cons]
              omega)
        simp [Frag.render, captureAux, heq, hrt', hne1', hmain]
      · have hne2 : ¬ ('/' :: n.data) = '/' :: name := by
          intro he
          exact heq (by simpa using he)
        have hne3 : ¬ ('/' :: n.data) = name := by
          intro he
          exact hname (by rw [← he]; simp)
        have hcont := captureAux_close_other name n.data hngt hne2 hne3 d
            (f.render ++ rest) (f.render ++ res.1) res.2 (ihf hwf d rest res hrest)
        have hmain := ihc hwc d
            ('<' :: ('/' :: (n.data ++ ('>' :: (f.render ++ rest)))))
            ('<' :: ('/' :: (n.data ++ ('>' :: (f.render ++ res.1)))), res.2)
            hcont fz (by
              simp only [Frag.render, List.length_append, List.length_cons] at hf
              simp only [List.length_append, List.length_cons]
              omega)
        simp [Frag.render, captureAux, hrt, hne1, heq, hmain]

theorem capture_frag (name : List Char) (hname : '/' ∉ name)
    (hngt : ∀ c ∈ name, (c == '>') = false) (f : Frag) (hw : f.wf = true)
    (rest : List Char) :
    capture name (f.render ++ ('<' :: ('/' :: (name ++ ('>' :: rest)))))
      = some (f.render, rest) := by
  unfold capture
  have h := captureAux_frag name hname f hw 0
    ('<' :: ('/' :: (name ++ ('>' :: rest)))) ([], rest)
    (captureAux_close name hngt rest)
    ((f.render ++ ('<' :: ('/' :: (name ++ ('>' :: rest))))).length + 1)
    (Nat.lt_succ_self _)
  simpa using h

/-! ## Decoder error taxonomy and the generic child-element loop -/

/-- `MalformedInputError`: the outer markup cannot be parsed into the
expected tag structure (the specification's single structural decode
error). -/
inductive DecodeError : Type
  | malformedInput : DecodeError
deriving Repr, DecidableEq

/-- Generic decode loop for struct content: repeatedly reads child
elements and dispatches them through the handler `h` (which consumes
the element's content including its end tag and updates the partially
built value); stops at the end tag `</closer>` of the enclosing
element; character data between elements is ignored, as the struct
types carry no chardata field. -/
def childLoop {σ : Type} (h : σ → List Char → List Char → Option (σ × List Char))
    (closer : List Char) : Nat → σ → List Char → Option (σ × List Char)
  | 0, _, _ => none
  | fuel + 1, st, cs =>
    match cs with
    | [] => none
    | c :: rest =>
      if c = '<' then
        match readTag rest with
        | none => none
        | some (tag, rest') =>
          if tag = '/' :: closer then some (st, rest')
          else if tag.head? = some '/' then none
          else
            match h st tag rest' with
            | none => none
            | some (st', rest'') => childLoop h closer fuel st' rest''
      else childLoop h closer fuel st rest

/-- With any sufficient fuel, the child loop started in state `st` on
input `cs` returns `r`. -/
def LoopSem {σ : Type} (h : σ → List Char → List Char → Option (σ × List Char))
    (closer : List Char) (st : σ) (cs : List Char) (r : σ × List Char) : Prop :=
  ∀ fuel, cs.length < fuel → childLoop h closer fuel st cs = some r

theorem loopSem_close {σ : Type} (h : σ → List Char → List Char → Option (σ × List Char))
    (closer : List Char) (hngt : ∀ c ∈ closer, (c == '>') = false) (st : σ)
    (rest : List Char) :
    LoopSem h closer st ('<' :: ('/' :: (closer ++ ('>' :: rest)))) (st, rest) := by
  intro fuel hf
  cases fuel with
  | zero => simp at hf
  | succ fz =>
    simp [childLoop, readTag_close closer hngt rest]

theorem loopSem_step {σ : Type} (h : σ → List Char → List Char → Option (σ × List Char))
    (closer tag content rest : List Char) (st st' : σ) (r : σ × List Char)
    (hngt : ∀ c ∈ tag, (c == '>') = false)
    (hne : ¬ tag = '/' :: closer)
    (hhd : ¬ tag.head? = some '/')
    (hh : h st tag (content ++ rest) = some (st', rest))
    (hcont : LoopSem h closer st' rest r) :
    LoopSem h closer st ('<' :: (tag ++ ('>' :: (content ++ rest)))) r := by
  intro fuel hf
  cases fuel with
  | zero => simp at hf
  | succ fz =>
    have hrt : readTag (tag ++ ('>' :: (content ++ rest))) = some (tag, content ++ rest) :=
      readTag_append tag _ hngt
    have hcont' := hcont fz (by simp at hf; omega)
    simp [childLoop, hrt, hne, hhd, hh, hcont']

/-! ## Generic encoder pieces

Each struct's encoder is a list of `(element name, rendered content)`
pairs emitted in field declaration order, wrapped in the struct's fixed
element name — exactly `encoding/xml`'s marshalling of these tag
declarations. -/

def renderElem (name content : String) : List Char :=
  '<' :: (name.data ++ ('>' :: (content.data ++ ('<' :: ('/' :: (name.data ++ ['>']))))))

def renderFields : List (String × String) → List Char
  | [] => []
  | p :: ps => renderElem p.1 p.2 ++ renderFields ps

theorem renderFields_append (a b : List (String × String)) :
    renderFields (a ++ b) = renderFields a ++ renderFields b := by
  induction a with
  | nil => simp [renderFields]
  | cons p ps ih => simp [renderFields, ih]

/-- The element names an encoded value emits, in order. -/
def fieldNames (fs : List (String × String)) : List String := fs.map Prod.fst

def escS (s : String) : String := ⟨escape s.data⟩

def intS (i : Int) : String := ⟨intChars i⟩

def boolS (b : Bool) : String := ⟨boolChars b⟩

def nestedS (fields : List (String × String)) : String := ⟨renderFields fields⟩

/-- A mandatory string field (`xml:"tag"`): always emitted, escaped. -/
def strField (name : String) (v : String) : List (String × String) := [(name, escS v)]

/-- `xml:"tag,omitempty"` on a string: skipped when the value is the
empty string. -/
def optStrField (name : String) (v : String) : List (String × String) :=
  if v = "" then [] else [(name, escS v)]

/-- A bool field: always emitted (no bool in these types carries
`omitempty`). -/
def boolField (name : String) (b : Bool) : List (String × String) := [(name, boolS b)]

/-- A mandatory int field. -/
def intField (name : String) (i : Int) : List (String × String) := [(name, intS i)]

/-- `xml:"tag,omitempty"` on an int: skipped when the value is `0`. -/
def optIntField (name : String) (i : Int) : List (String × String) :=
  if i = 0 then [] else [(name, intS i)]

/-- A `*bool` field: a nil pointer is always skipped (with or without
`omitempty`); a set pointer is always emitted, even at `false`, because
`encoding/xml` tests emptiness on the pointer itself. -/
def ptrBoolField (name : String) : Option Bool → List (String × String)
  | none => []
  | some b => [(name, boolS b)]

/-- A `*int` field; same presence rule as `ptrBoolField`. -/
def ptrIntField (name : String) : Option Int → List (String × String)
  | none => []
  | some i => [(name, intS i)]

/-- A struct-typed `InnerXML` field: the stored text is emitted
verbatim (no escaping); the element itself is always emitted because a
struct value is never "empty" under `encoding/xml`'s `omitempty`
rule, so the tag on `firewallRules`/`globalConfig` has no effect. -/
def innerField (name : String) (x : String) : List (String × String) := [(name, x)]

/-- A `[]InnerXML` field (`omitempty`): one element per entry, each
emitted verbatim; an empty slice is skipped as a whole. -/
def listInnerField (name : String) (l : List String) : List (String × String) :=
  l.map (fun x => (name, x))

/-- A `[]string` field (`omitempty`): one escaped element per entry. -/
def listStrField (name : String) (l : List String) : List (String × String) :=
  l.map (fun v => (name, escS v))

/-- A slice of nested structs: one element per entry, each rendered
from its own field list. -/
def listNestedField (name : String) (fs : List (List (String × String))) :
    List (String × String) :=
  fs.map (fun f => (name, nestedS f))

/-! ## The data-transfer types of `nsxv_types.go`

Field names, types and declaration order follow the Go structs.  The
`XMLName xml.Name` anchor fields are represented by each type's fixed
element name in its encoder/decoder rather than stored (they carry no
document data); the Go field `Type` is written `Type_` because `Type`
is not a usable identifier in Lean.  Pointer optionality (`*bool`,
`*int`, `*LbLogging`) is `Option`; Go `int` is `Int`. -/

/-- `InnerXML` — a field unmarshalled into raw text rather than a
struct (struct tag `xml:",innerxml"`). -/
structure InnerXML where
  Text : String
deriving Repr, DecidableEq, Inhabited

/-- `FirewallDefaultPolicy`. -/
structure FirewallDefaultPolicy where
  LoggingEnabled : Bool
  Action : String
deriving Repr, DecidableEq, Inhabited

/-- `FirewallConfigWithXml` (element `firewall`). -/
structure FirewallConfigWithXml where
  Enabled : Bool
  DefaultPolicy : FirewallDefaultPolicy
  Version : String
  FirewallRules : InnerXML
  GlobalConfig : InnerXML
deriving Repr, DecidableEq, Inhabited

/-- `LbLogging`. -/
structure LbLogging where
  Enable : Bool
  LogLevel : String
deriving Repr, DecidableEq, Inhabited

/-- `LbGeneralParamsWithXml` (element `loadBalancer`). -/
structure LbGeneralParamsWithXml where
  Enabled : Bool
  AccelerationEnabled : Bool
  Logging : Option LbLogging
  EnableServiceInsertion : Bool
  Version : String
  VirtualServers : List InnerXML
  Pools : List InnerXML
  AppProfiles : List InnerXML
  Monitors : List InnerXML
  AppRules : List InnerXML
deriving Repr, DecidableEq, Inhabited

/-- `LbMonitor` (element `monitor`). -/
structure LbMonitor where
  ID : String
  Type_ : String
  Interval : Int
  Timeout : Int
  MaxRetries : Int
  Method : String
  URL : String
  Expected : String
  Name : String
  Send : String
  Receive : String
  Extension : String
deriving Repr, DecidableEq, Inhabited

/-- `LbPoolMember`. -/
structure LbPoolMember where
  ID : String
  Name : String
  IpAddress : String
  Weight : Int
  MonitorPort : Int
  Port : Int
  MaxConn : Int
  MinConn : Int
  Condition : String
deriving Repr, DecidableEq, Inhabited

/-- `LbPool` (element `pool`). -/
structure LbPool where
  ID : String
  Name : String
  Description : String
  Algorithm : String
  AlgorithmParameters : String
  Transparent : Bool
  MonitorId : String
  Members : List LbPoolMember
deriving Repr, DecidableEq, Inhabited

/-- `EdgeNatRule` (element `natRule`). -/
structure EdgeNatRule where
  ID : String
  RuleType : String
  RuleTag : String
  Action : String
  Vnic : Option Int
  OriginalAddress : String
  TranslatedAddress : String
  LoggingEnabled : Bool
  Enabled : Bool
  Description : String
  Protocol : String
  OriginalPort : String
  TranslatedPort : String
  IcmpType : String
deriving Repr, DecidableEq, Inhabited

/-- `EdgeFirewallEndpoint`. -/
structure EdgeFirewallEndpoint where
  Exclude : Bool
  VnicGroupIds : List String
  GroupingObjectIds : List String
  IpAddresses : List String
deriving Repr, DecidableEq, Inhabited

/-- `EdgeFirewallApplicationService`. -/
structure EdgeFirewallApplicationService where
  Protocol : String
  Port : String
  SourcePort : String
deriving Repr, DecidableEq, Inhabited

/-- `EdgeFirewallApplication`. -/
structure EdgeFirewallApplication where
  ID : String
  Services : List EdgeFirewallApplicationService
deriving Repr, DecidableEq, Inhabited

/-- `EdgeFirewallRule` (element `firewallRule`). -/
structure EdgeFirewallRule where
  ID : String
  Name : String
  RuleType : String
  RuleTag : String
  Source : EdgeFirewallEndpoint
  Destination : EdgeFirewallEndpoint
  Application : EdgeFirewallApplication
  MatchTranslated : Option Bool
  Direction : String
  Action : String
  Enabled : Bool
  LoggingEnabled : Bool
deriving Repr, DecidableEq, Inhabited

/-- `EdgeIpSet` (element `ipset`). -/
structure EdgeIpSet where
  ID : String
  Name : String
  Description : String
  IPAddresses : String
  InheritanceAllowed : Option Bool
  Revision : Option Int
deriving Repr, DecidableEq, Inhabited

/-! ## Encoders

One definition per struct listing its `(tag, content)` pairs in
declaration order, with the omission rule of each field's struct tag;
then the byte-level encoder wrapping them in the struct's element
name. -/

/-- `loggingEnabled`, `action` — both mandatory. -/
def firewallDefaultPolicyFields (p : FirewallDefaultPolicy) : List (String × String) :=
  boolField "loggingEnabled" p.LoggingEnabled ++ strField "action" p.Action

/-- `enabled`, `defaultPolicy`, `version,omitempty`,
`firewallRules,omitempty` (innerxml), `globalConfig,omitempty`
(innerxml). -/
def firewallConfigFields (f : FirewallConfigWithXml) : List (String × String) :=
  boolField "enabled" f.Enabled ++
  [("defaultPolicy", nestedS (firewallDefaultPolicyFields f.DefaultPolicy))] ++
  optStrField "version" f.Version ++
  innerField "firewallRules" f.FirewallRules.Text ++
  innerField "globalConfig" f.GlobalConfig.Text

def encodeFirewallConfigWithXml (f : FirewallConfigWithXml) : String :=
  ⟨renderElem "firewall" (nestedS (firewallConfigFields f))⟩

/-- `enable`, `logLevel` — both mandatory. -/
def lbLoggingFields (l : LbLogging) : List (String × String) :=
  boolField "enable" l.Enable ++ strField "logLevel" l.LogLevel

/-- `enabled`, `accelerationEnabled`, `logging` (pointer),
`enableServiceInsertion`, `version,omitempty`, then the five
`[]InnerXML,omitempty` pass-through slices. -/
def lbGeneralParamsFields (g : LbGeneralParamsWithXml) : List (String × String) :=
  boolField "enabled" g.Enabled ++
  boolField "accelerationEnabled" g.AccelerationEnabled ++
  (match g.Logging with
    | none => []
    | some l => [("logging", nestedS (lbLoggingFields l))]) ++
  boolField "enableServiceInsertion" g.EnableServiceInsertion ++
  optStrField "version" g.Version ++
  listInnerField "virtualServer" (g.VirtualServers.map InnerXML.Text) ++
  listInnerField "pool" (g.Pools.map InnerXML.Text) ++
  listInnerField "applicationProfile" (g.AppProfiles.map InnerXML.Text) ++
  listInnerField "monitor" (g.Monitors.map InnerXML.Text) ++
  listInnerField "applicationRule" (g.AppRules.map InnerXML.Text)

def encodeLbGeneralParamsWithXml (g : LbGeneralParamsWithXml) : String :=
  ⟨renderElem "loadBalancer" (nestedS (lbGeneralParamsFields g))⟩

/-- `monitorId,omitempty`, `type`, then the ten `omitempty`
int/string fields of `LbMonitor`. -/
def lbMonitorFields (m : LbMonitor) : List (String × String) :=
  optStrField "monitorId" m.ID ++ strField "type" m.Type_ ++
  optIntField "interval" m.Interval ++ optIntField "timeout" m.Timeout ++
  optIntField "maxRetries" m.MaxRetries ++ optStrField "method" m.Method ++
  optStrField "url" m.URL ++ optStrField "expected" m.Expected ++
  optStrField "name" m.Name ++ optStrField "send" m.Send ++
  optStrField "receive" m.Receive ++ optStrField "extension" m.Extension

def encodeLbMonitor (m : LbMonitor) : String :=
  ⟨renderElem "monitor" (nestedS (lbMonitorFields m))⟩

/-- `memberId,omitempty`, `name`, `ipAddress`, `weight,omitempty`,
`monitorPort,omitempty`, `port`, `maxConn,omitempty`,
`minConn,omitempty`, `condition,omitempty`. -/
def lbPoolMemberFields (m : LbPoolMember) : List (String × String) :=
  optStrField "memberId" m.ID ++ strField "name" m.Name ++
  strField "ipAddress" m.IpAddress ++ optIntField "weight" m.Weight ++
  optIntField "monitorPort" m.MonitorPort ++ intField "port" m.Port ++
  optIntField "maxConn" m.MaxConn ++ optIntField "minConn" m.MinConn ++
  optStrField "condition" m.Condition

/-- `poolId,omitempty`, `name`, `description,omitempty`, `algorithm`,
`algorithmParameters,omitempty`, `transparent`, `monitorId,omitempty`,
`member,omitempty`. -/
def lbPoolFields (p : LbPool) : List (String × String) :=
  optStrField "poolId" p.ID ++ strField "name" p.Name ++
  optStrField "description" p.Description ++ strField "algorithm" p.Algorithm ++
  optStrField "algorithmParameters" p.AlgorithmParameters ++
  boolField "transparent" p.Transparent ++ optStrField "monitorId" p.MonitorId ++
  listNestedField "member" (p.Members.map lbPoolMemberFields)

def encodeLbPool (p : LbPool) : String :=
  ⟨renderElem "pool" (nestedS (lbPoolFields p))⟩

/-- `ruleId,omitempty`, `ruleType,omitempty`, `ruleTag,omitempty`,
`action`, `vnic,omitempty` (pointer), `originalAddress`,
`translatedAddress`, `loggingEnabled`, `enabled`,
`description,omitempty`, `protocol,omitempty`, `originalPort,omitempty`,
`translatedPort,omitempty`, `icmpType,omitempty`. -/
def edgeNatRuleFields (r : EdgeNatRule) : List (String × String) :=
  optStrField "ruleId" r.ID ++ optStrField "ruleType" r.RuleType ++
  optStrField "ruleTag" r.RuleTag ++ strField "action" r.Action ++
  ptrIntField "vnic" r.Vnic ++ strField "originalAddress" r.OriginalAddress ++
  strField "translatedAddress" r.TranslatedAddress ++
  boolField "loggingEnabled" r.LoggingEnabled ++ boolField "enabled" r.Enabled ++
  optStrField "description" r.Description ++ optStrField "protocol" r.Protocol ++
  optStrField "originalPort" r.OriginalPort ++
  optStrField "translatedPort" r.TranslatedPort ++ optStrField "icmpType" r.IcmpType

def encodeEdgeNatRule (r : EdgeNatRule) : String :=
  ⟨renderElem "natRule" (nestedS (edgeNatRuleFields r))⟩

/-- `exclude`, `vnicGroupId,omitempty` (slice),
`groupingObjectId,omitempty` (slice), `ipAddress,omitempty` (slice). -/
def edgeFirewallEndpointFields (e : EdgeFirewallEndpoint) : List (String × String) :=
  boolField "exclude" e.Exclude ++ listStrField "vnicGroupId" e.VnicGroupIds ++
  listStrField "groupingObjectId" e.GroupingObjectIds ++
  listStrField "ipAddress" e.IpAddresses

/-- `protocol,omitempty`, `port,omitempty`, `sourcePort,omitempty`. -/
def edgeFirewallApplicationServiceFields (s : EdgeFirewallApplicationService) :
    List (String × String) :=
  optStrField "protocol" s.Protocol ++ optStrField "port" s.Port ++
  optStrField "sourcePort" s.SourcePort

/-- `applicationId,omitempty`, `service,omitempty` (slice of nested
structs). -/
def edgeFirewallApplicationFields (a : EdgeFirewallApplication) : List (String × String) :=
  optStrField "applicationId" a.ID ++
  listNestedField "service" (a.Services.map edgeFirewallApplicationServiceFields)

/-- `id,omitempty`, `name,omitempty`, `ruleType,omitempty`,
`ruleTag,omitempty`, `source`, `destination`, `application`,
`matchTranslated,omitempty` (pointer), `direction,omitempty`,
`action,omitempty`, `enabled`, `loggingEnabled`. -/
def edgeFirewallRuleFields (r : EdgeFirewallRule) : List (String × String) :=
  optStrField "id" r.ID ++ optStrField "name" r.Name ++
  optStrField "ruleType" r.RuleType ++ optStrField "ruleTag" r.RuleTag ++
  [("source", nestedS (edgeFirewallEndpointFields r.Source))] ++
  [("destination", nestedS (edgeFirewallEndpointFields r.Destination))] ++
  [("application", nestedS (edgeFirewallApplicationFields r.Application))] ++
  ptrBoolField "matchTranslated" r.MatchTranslated ++
  optStrField "direction" r.Direction ++ optStrField "action" r.Action ++
  boolField "enabled" r.Enabled ++ boolField "loggingEnabled" r.LoggingEnabled

def encodeEdgeFirewallRule (r : EdgeFirewallRule) : String :=
  ⟨renderElem "firewallRule" (nestedS (edgeFirewallRuleFields r))⟩

/-- `objectId,omitempty`, `name`, `description,omitempty`, `value`,
`inheritanceAllowed` (pointer, no omitempty), `revision,omitempty`
(pointer). -/
def edgeIpSetFields (s : EdgeIpSet) : List (String × String) :=
  optStrField "objectId" s.ID ++ strField "name" s.Name ++
  optStrField "description" s.Description ++ strField "value" s.IPAddresses ++
  ptrBoolField "inheritanceAllowed" s.InheritanceAllowed ++
  ptrIntField "revision" s.Revision

def encodeEdgeIpSet (s : EdgeIpSet) : String :=
  ⟨renderElem "ipset" (nestedS (edgeIpSetFields s))⟩

/-! ## Decoders

One handler per struct dispatching child elements by tag name (unknown
children are skipped whole, as `encoding/xml` does), then the top-level
decoder expecting the struct's root element.  Unmarshalling starts from
the type's zero value. -/

/-- Skip an unknown child element together with its whole subtree. -/
def skipElem (tag cs : List Char) : Option (List Char) :=
  (capture tag cs).map Prod.snd

/-- String field content: unescaped character data up to the end tag. -/
def readStrF (tag cs : List Char) : Option (String × List Char) :=
  (readSimple tag cs).map (fun p => (⟨p.1⟩, p.2))

/-- Int field content: character data, trimmed, parsed base 10. -/
def readIntF (tag cs : List Char) : Option (Int × List Char) :=
  (readSimple tag cs).bind fun p =>
    (parseIntChars (xmlTrim p.1)).map (fun i => (i, p.2))

/-- Bool field content: character data, trimmed, `strconv.ParseBool`. -/
def readBoolF (tag cs : List Char) : Option (Bool × List Char) :=
  (readSimple tag cs).bind fun p =>
    (parseGoBool (xmlTrim p.1)).map (fun b => (b, p.2))

/-- `innerxml` field content: the raw inner text, captured verbatim. -/
def readInnerF (tag cs : List Char) : Option (InnerXML × List Char) :=
  (capture tag cs).map (fun p => (⟨⟨p.1⟩⟩, p.2))

/-- Run a nested struct's child loop on the content of an element
(fuel bounded by the remaining input). -/
def runNested {σ : Type} (h : σ → List Char → List Char → Option (σ × List Char))
    (closer : List Char) (z : σ) (cs : List Char) : Option (σ × List Char) :=
  childLoop h closer (cs.length + 1) z cs

/-- Top-level decode: optional leading whitespace, the root start tag,
the child loop, then the matching end tag was already consumed by the
loop; trailing input is ignored (as `xml.Unmarshal` stops after the
matched element).  Any structural failure is `MalformedInputError`. -/
def decodeXml {σ : Type} (root : String)
    (h : σ → List Char → List Char → Option (σ × List Char)) (z : σ) (s : String) :
    Except DecodeError σ :=
  match expectL ('<' :: (root.data ++ ['>'])) (s.data.dropWhile isXmlSpace) with
  | none => Except.error DecodeError.malformedInput
  | some rest =>
    match childLoop h root.data (rest.length + 1) z rest with
    | none => Except.error DecodeError.malformedInput
    | some (v, _) => Except.ok v

def LbMonitor.zero : LbMonitor := ⟨"", "", 0, 0, 0, "", "", "", "", "", "", ""⟩

def lbMonitorH (st : LbMonitor) (tag rest : List Char) : Option (LbMonitor × List Char) :=
  if tag = "monitorId".data then
    (readStrF tag rest).map (fun p => ({st with ID := p.1}, p.2))
  else if tag = "type".data then
    (readStrF tag rest).map (fun p => ({st with Type_ := p.1}, p.2))
  else if tag = "interval".data then
    (readIntF tag rest).map (fun p => ({st with Interval := p.1}, p.2))
  else if tag = "timeout".data then
    (readIntF tag rest).map (fun p => ({st with Timeout := p.1}, p.2))
  else if tag = "maxRetries".data then
    (readIntF tag rest).map (fun p => ({st with MaxRetries := p.1}, p.2))
  else if tag = "method".data then
    (readStrF tag rest).map (fun p => ({st with Method := p.1}, p.2))
  else if tag = "url".data then
    (readStrF tag rest).map (fun p => ({st with URL := p.1}, p.2))
  else if tag = "expected".data then
    (readStrF tag rest).map (fun p => ({st with Expected := p.1}, p.2))
  else if tag = "name".data then
    (readStrF tag rest).map (fun p => ({st with Name := p.1}, p.2))
  else if tag = "send".data then
    (readStrF tag rest).map (fun p => ({st with Send := p.1}, p.2))
  else if tag = "receive".data then
    (readStrF tag rest).map (fun p => ({st with Receive := p.1}, p.2))
  else if tag = "extension".data then
    (readStrF tag rest).map (fun p => ({st with Extension := p.1}, p.2))
  else (skipElem tag rest).map (fun r => (st, r))

def decodeLbMonitor (s : String) : Except DecodeError LbMonitor :=
  decodeXml "monitor" lbMonitorH LbMonitor.zero s

def FirewallDefaultPolicy.zero : FirewallDefaultPolicy := ⟨false, ""⟩

def firewallDefaultPolicyH (st : FirewallDefaultPolicy) (tag rest : List Char) :
    Option (FirewallDefaultPolicy × List Char) :=
  if tag = "loggingEnabled".data then
    (readBoolF tag rest).map (fun p => ({st with LoggingEnabled := p.1}, p.2))
  else if tag = "action".data then
    (readStrF tag rest).map (fun p => ({st with Action := p.1}, p.2))
  else (skipElem tag rest).map (fun r => (st, r))

def FirewallConfigWithXml.zero : FirewallConfigWithXml :=
  ⟨false, FirewallDefaultPolicy.zero, "", ⟨""⟩, ⟨""⟩⟩

def firewallConfigH (st : FirewallConfigWithXml) (tag rest : List Char) :
    Option (FirewallConfigWithXml × List Char) :=
  if tag = "enabled".data then
    (readBoolF tag rest).map (fun p => ({st with Enabled := p.1}, p.2))
  else if tag = "defaultPolicy".data then
    (runNested firewallDefaultPolicyH tag FirewallDefaultPolicy.zero rest).map
      (fun p => ({st with DefaultPolicy := p.1}, p.2))
  else if tag = "version".data then
    (readStrF tag rest).map (fun p => ({st with Version := p.1}, p.2))
  else if tag = "firewallRules".data then
    (readInnerF tag rest).map (fun p => ({st with FirewallRules := p.1}, p.2))
  else if tag = "globalConfig".data then
    (readInnerF tag rest).map (fun p => ({st with GlobalConfig := p.1}, p.2))
  else (skipElem tag rest).map (fun r => (st, r))

def decodeFirewallConfigWithXml (s : String) : Except DecodeError FirewallConfigWithXml :=
  decodeXml "firewall" firewallConfigH FirewallConfigWithXml.zero s

def LbLogging.zero : LbLogging := ⟨false, ""⟩

def lbLoggingH (st : LbLogging) (tag rest : List Char) : Option (LbLogging × List Char) :=
  if tag = "enable".data then
    (readBoolF tag rest).map (fun p => ({st with Enable := p.1}, p.2))
  else if tag = "logLevel".data then
    (readStrF tag rest).map (fun p => ({st with LogLevel := p.1}, p.2))
  else (skipElem tag rest).map (fun r => (st, r))

def LbGeneralParamsWithXml.zero : LbGeneralParamsWithXml :=
  ⟨false, false, none, false, "", [], [], [], [], []⟩

def lbGeneralParamsH (st : LbGeneralParamsWithXml) (tag rest : List Char) :
    Option (LbGeneralParamsWithXml × List Char) :=
  if tag = "enabled".data then
    (readBoolF tag rest).map (fun p => ({st with Enabled := p.1}, p.2))
  else if tag = "accelerationEnabled".data then
    (readBoolF tag rest).map (fun p => ({st with AccelerationEnabled := p.1}, p.2))
  else if tag = "logging".data then
    (runNested lbLoggingH tag LbLogging.zero rest).map
      (fun p => ({st with Logging := some p.1}, p.2))
  else if tag = "enableServiceInsertion".data then
    (readBoolF tag rest).map (fun p => ({st with EnableServiceInsertion := p.1}, p.2))
  else if tag = "version".data then
    (readStrF tag rest).map (fun p => ({st with Version := p.1}, p.2))
  else if tag = "virtualServer".data then
    (readInnerF tag rest).map
      (fun p => ({st with VirtualServers := st.VirtualServers ++ [p.1]}, p.2))
  else if tag = "pool".data then
    (readInnerF tag rest).map (fun p => ({st with Pools := st.Pools ++ [p.1]}, p.2))
  else if tag = "applicationProfile".data then
    (readInnerF tag rest).map
      (fun p => ({st with AppProfiles := st.AppProfiles ++ [p.1]}, p.2))
  else if tag = "monitor".data then
    (readInnerF tag rest).map (fun p => ({st with Monitors := st.Monitors ++ [p.1]}, p.2))
  else if tag = "applicationRule".data then
    (readInnerF tag rest).map (fun p => ({st with AppRules := st.AppRules ++ [p.1]}, p.2))
  else (skipElem tag rest).map (fun r => (st, r))

def decodeLbGeneralParamsWithXml (s : String) : Except DecodeError LbGeneralParamsWithXml :=
  decodeXml "loadBalancer" lbGeneralParamsH LbGeneralParamsWithXml.zero s

def EdgeFirewallEndpoint.zero : EdgeFirewallEndpoint := ⟨false, [], [], []⟩

def edgeFirewallEndpointH (st : EdgeFirewallEndpoint) (tag rest : List Char) :
    Option (EdgeFirewallEndpoint × List Char) :=
  if tag = "exclude".data then
    (readBoolF tag rest).map (fun p => ({st with Exclude := p.1}, p.2))
  else if tag = "vnicGroupId".data then
    (readStrF tag rest).map
      (fun p => ({st with VnicGroupIds := st.VnicGroupIds ++ [p.1]}, p.2))
  else if tag = "groupingObjectId".data then
    (readStrF tag rest).map
      (fun p => ({st with GroupingObjectIds := st.GroupingObjectIds ++ [p.1]}, p.2))
  else if tag = "ipAddress".data then
    (readStrF tag rest).map
      (fun p => ({st with IpAddresses := st.IpAddresses ++ [p.1]}, p.2))
  else (skipElem tag rest).map (fun r => (st, r))

def EdgeFirewallApplicationService.zero : EdgeFirewallApplicationService := ⟨"", "", ""⟩

def edgeFirewallApplicationServiceH (st : EdgeFirewallApplicationService)
    (tag rest : List Char) : Option (EdgeFirewallApplicationService × List Char) :=
  if tag = "protocol".data then
    (readStrF tag rest).map (fun p => ({st with Protocol := p.1}, p.2))
  else if tag = "port".data then
    (readStrF tag rest).map (fun p => ({st with Port := p.1}, p.2))
  else if tag = "sourcePort".data then
    (readStrF tag rest).map (fun p => ({st with SourcePort := p.1}, p.2))
  else (skipElem tag rest).map (fun r => (st, r))

def EdgeFirewallApplication.zero : EdgeFirewallApplication := ⟨"", []⟩

def edgeFirewallApplicationH (st : EdgeFirewallApplication) (tag rest : List Char) :
    Option (EdgeFirewallApplication × List Char) :=
  if tag = "applicationId".data then
    (readStrF tag rest).map (fun p => ({st with ID := p.1}, p.2))
  else if tag = "service".data then
    (runNested edgeFirewallApplicationServiceH tag EdgeFirewallApplicationService.zero
        rest).map
      (fun p => ({st with Services := st.Services ++ [p.1]}, p.2))
  else (skipElem tag rest).map (fun r => (st, r))

def EdgeFirewallRule.zero : EdgeFirewallRule :=
  ⟨"", "", "", "", EdgeFirewallEndpoint.zero, EdgeFirewallEndpoint.zero,
    EdgeFirewallApplication.zero, none, "", "", false, false⟩

def edgeFirewallRuleH (st : EdgeFirewallRule) (tag rest : List Char) :
    Option (EdgeFirewallRule × List Char) :=
  if tag = "id".data then
    (readStrF tag rest).map (fun p => ({st with ID := p.1}, p.2))
  else if tag = "name".data then
    (readStrF tag rest).map (fun p => ({st with Name := p.1}, p.2))
  else if tag = "ruleType".data then
    (readStrF tag rest).map (fun p => ({st with RuleType := p.1}, p.2))
  else if tag = "ruleTag".data then
    (readStrF tag rest).map (fun p => ({st with RuleTag := p.1}, p.2))
  else if tag = "source".data then
    (runNested edgeFirewallEndpointH tag EdgeFirewallEndpoint.zero rest).map
      (fun p => ({st with Source := p.1}, p.2))
  else if tag = "destination".data then
    (runNested edgeFirewallEndpointH tag EdgeFirewallEndpoint.zero rest).map
      (fun p => ({st with Destination := p.1}, p.2))
  else if tag = "application".data then
    (runNested edgeFirewallApplicationH tag EdgeFirewallApplication.zero rest).map
      (fun p => ({st with Application := p.1}, p.2))
  else if tag = "matchTranslated".data then
    (readBoolF tag rest).map (fun p => ({st with MatchTranslated := some p.1}, p.2))
  else if tag = "direction".data then
    (readStrF tag rest).map (fun p => ({st with Direction := p.1}, p.2))
  else if tag = "action".data then
    (readStrF tag rest).map (fun p => ({st with Action := p.1}, p.2))
  else if tag = "enabled".data then
    (readBoolF tag rest).map (fun p => ({st with Enabled := p.1}, p.2))
  else if tag = "loggingEnabled".data then
    (readBoolF tag rest).map (fun p => ({st with LoggingEnabled := p.1}, p.2))
  else (skipElem tag rest).map (fun r => (st, r))

def decodeEdgeFirewallRule (s : String) : Except DecodeError EdgeFirewallRule :=
  decodeXml "firewallRule" edgeFirewallRuleH EdgeFirewallRule.zero s

/-! ## Round-trip lemma infrastructure -/

instance {e a : Type} [DecidableEq e] [DecidableEq a] : DecidableEq (Except e a)
  | .ok x, .ok y => if h : x = y then .isTrue (by rw [h]) else .isFalse (by simp [h])
  | .error x, .error y => if h : x = y then .isTrue (by rw [h]) else .isFalse (by simp [h])
  | .ok _, .error _ => .isFalse (by simp)
  | .error _, .ok _ => .isFalse (by simp)

theorem strData_mk (l : List Char) : (⟨l⟩ : String).data = l := rfl

theorem strMk_data (s : String) : (⟨s.data⟩ : String) = s := rfl

theorem escS_data (s : String) : (escS s).data = escape s.data := rfl

theorem intS_data (i : Int) : (intS i).data = intChars i := rfl

theorem boolS_data (b : Bool) : (boolS b).data = boolChars b := rfl

theorem nestedS_data (fs : List (String × String)) : (nestedS fs).data = renderFields fs := rfl

theorem strApp_data (a b : String) : (a ++ b).data = a.data ++ b.data := rfl

theorem ne_slash_cons (t closer : List Char) (hhd : ¬ t.head? = some '/') :
    ¬ t = '/' :: closer := by
  intro he
  rw [he] at hhd
  exact hhd rfl

/-- One well-formed child element processed by the loop: read the start
tag, let the handler consume content and end tag, continue. -/
theorem loopSem_elem {σ : Type} (h : σ → List Char → List Char → Option (σ × List Char))
    (closer : List Char) (name content : String) (rest : List Char) (st st' : σ)
    (r : σ × List Char)
    (hngt : ∀ c ∈ name.data, (c == '>') = false)
    (hhd : ¬ name.data.head? = some '/')
    (hh : h st name.data (content.data ++ ('<' :: ('/' :: (name.data ++ ('>' :: rest)))))
        = some (st', rest))
    (hcont : LoopSem h closer st' rest r) :
    LoopSem h closer st (renderElem name content ++ rest) r := by
  have hh' : h st name.data
      ((content.data ++ ('<' :: ('/' :: (name.data ++ ['>'])))) ++ rest)
      = some (st', rest) := by
    simpa [List.append_assoc] using hh
  have hstep := loopSem_step h closer name.data
      (content.data ++ ('<' :: ('/' :: (name.data ++ ['>'])))) rest st st' r
      hngt (ne_slash_cons name.data closer hhd) hhd hh' hcont
  have hsh : renderElem name content ++ rest
      = '<' :: (name.data ++ ('>' ::
          ((content.data ++ ('<' :: ('/' :: (name.data ++ ['>'])))) ++ rest))) := by
    simp [renderElem]
  rw [hsh]
  exact hstep

/-! ## Per-field loop lemmas and per-struct assemblies

For each struct, one lemma per field shows that the loop consumes that
field's encoding (present or omitted per its rule) and performs exactly
the corresponding update; the assembly chains them in declaration
order. -/

theorem svcSem_protocol (closer : List Char) (m st : EdgeFirewallApplicationService) (rest : List Char)
    (r : EdgeFirewallApplicationService × List Char)
    (hst : st.Protocol = "")
    (hcont : LoopSem edgeFirewallApplicationServiceH closer {st with Protocol := m.Protocol} rest r) :
    LoopSem edgeFirewallApplicationServiceH closer st (renderFields (optStrField "protocol" m.Protocol) ++ rest) r := by
  by_cases h : m.Protocol = ""
  · have hst' : ({st with Protocol := m.Protocol}) = st := by
      cases st; simp_all
    rw [hst'] at hcont
    simpa [optStrField, h, renderFields] using hcont
  ·
    have hrs := readSimple_escape "protocol".data m.Protocol.data rest
    simp at hrs
    have hh : edgeFirewallApplicationServiceH st "protocol".data
        ((escS m.Protocol).data ++ ('<' :: ('/' :: ("protocol".data ++ ('>' :: rest)))))
        = some ({st with Protocol := m.Protocol}, rest) := by
      simp only [edgeFirewallApplicationServiceH]
      rw [if_pos trivial]
      simp [readStrF, escS_data, hrs, strMk_data]
    have hstep := loopSem_elem edgeFirewallApplicationServiceH closer "protocol" (escS m.Protocol) rest st
        {st with Protocol := m.Protocol} r (by decide) (by decide) hh hcont
    rw [show renderFields (optStrField "protocol" m.Protocol) ++ rest
        = renderElem "protocol" (escS m.Protocol) ++ rest from by
      simp [optStrField, h, renderFields]]
    exact hstep

theorem svcSem_port (closer : List Char) (m st : EdgeFirewallApplicationService) (rest : List Char)
    (r : EdgeFirewallApplicationService × List Char)
    (hst : st.Port = "")
    (hcont : LoopSem edgeFirewallApplicationServiceH closer {st with Port := m.Port} rest r) :
    LoopSem edgeFirewallApplicationServiceH closer st (renderFields (optStrField "port" m.Port) ++ rest) r := by
  by_cases h : m.Port = ""
  · have hst' : ({st with Port := m.Port}) = st := by
      cases st; simp_all
    rw [hst'] at hcont
    simpa [optStrField, h, renderFields] using hcont
  ·
    have hrs := readSimple_escape "port".data m.Port.data rest
    simp at hrs
    have hh : edgeFirewallApplicationServiceH st "port".data
        ((escS m.Port).data ++ ('<' :: ('/' :: ("port".data ++ ('>' :: rest)))))
        = some ({st with Port := m.Port}, rest) := by
      simp only [edgeFirewallApplicationServiceH]
      rw [if_neg (by decide), if_pos trivial]
      simp [readStrF, escS_data, hrs, strMk_data]
    have hstep := loopSem_elem edgeFirewallApplicationServiceH closer "port" (escS m.Port) rest st
        {st with Port := m.Port} r (by decide) (by decide) hh hcont
    rw [show renderFields (optStrField "port" m.Port) ++ rest
        = renderElem "port" (escS m.Port) ++ rest from by
      simp [optStrField, h, renderFields]]
    exact hstep

theorem svcSem_sourcePort (closer : List Char) (m st : EdgeFirewallApplicationService) (rest : List Char)
    (r : EdgeFirewallApplicationService × List Char)
    (hst : st.SourcePort = "")
    (hcont : LoopSem edgeFirewallApplicationServiceH closer {st with SourcePort := m.SourcePort} rest r) :
    LoopSem edgeFirewallApplicationServiceH closer st (renderFields (optStrField "sourcePort" m.SourcePort) ++ rest) r := by
  by_cases h : m.SourcePort = ""
  · have hst' : ({st with SourcePort := m.SourcePort}) = st := by
      cases st; simp_all
    rw [hst'] at hcont
    simpa [optStrField, h, renderFields] using hcont
  ·
    have hrs := readSimple_escape "sourcePort".data m.SourcePort.data rest
    simp at hrs
    have hh : edgeFirewallApplicationServiceH st "sourcePort".data
        ((escS m.SourcePort).data ++ ('<' :: ('/' :: ("sourcePort".data ++ ('>' :: rest)))))
        = some ({st with SourcePort := m.SourcePort}, rest) := by
      simp only [edgeFirewallApplicationServiceH]
      rw [if_neg (by decide), if_neg (by decide), if_pos trivial]
      simp [readStrF, escS_data, hrs, strMk_data]
    have hstep := loopSem_elem edgeFirewallApplicationServiceH closer "sourcePort" (escS m.SourcePort) rest st
        {st with SourcePort := m.SourcePort} r (by decide) (by decide) hh hcont
    rw [show renderFields (optStrField "sourcePort" m.SourcePort) ++ rest
        = renderElem "sourcePort" (escS m.SourcePort) ++ rest from by
      simp [optStrField, h, renderFields]]
    exact hstep

theorem serviceAssembly (closer : List Char) (hc : ∀ c ∈ closer, (c == '>') = false)
    (m : EdgeFirewallApplicationService) (rest : List Char) :
    LoopSem edgeFirewallApplicationServiceH closer EdgeFirewallApplicationService.zero
      (renderFields (edgeFirewallApplicationServiceFields m) ++ ('<' :: ('/' :: (closer ++ ('>' :: rest)))))
      (m, rest) := by
  simp only [edgeFirewallApplicationServiceFields, renderFields_append, List.append_assoc]
  refine svcSem_protocol closer m _ _ _ rfl ?_
  refine svcSem_port closer m _ _ _ rfl ?_
  refine svcSem_sourcePort closer m _ _ _ rfl ?_
  exact loopSem_close edgeFirewallApplicationServiceH closer hc m rest

theorem epSem_exclude (closer : List Char) (m st : EdgeFirewallEndpoint) (rest : List Char)
    (r : EdgeFirewallEndpoint × List Char)
    (hcont : LoopSem edgeFirewallEndpointH closer {st with Exclude := m.Exclude} rest r) :
    LoopSem edgeFirewallEndpointH closer st (renderFields (boolField "exclude" m.Exclude) ++ rest) r := by
  have hrs := readSimple_boolChars "exclude".data m.Exclude rest
  simp at hrs
  have hh : edgeFirewallEndpointH st "exclude".data
      ((boolS m.Exclude).data ++ ('<' :: ('/' :: ("exclude".data ++ ('>' :: rest)))))
      = some ({st with Exclude := m.Exclude}, rest) := by
    simp only [edgeFirewallEndpointH]
    rw [if_pos trivial]
    simp [readBoolF, boolS_data, hrs, parseGoBool_boolChars]
  have hstep := loopSem_elem edgeFirewallEndpointH closer "exclude" (boolS m.Exclude) rest st
      {st with Exclude := m.Exclude} r (by decide) (by decide) hh hcont
  rw [show renderFields (boolField "exclude" m.Exclude) ++ rest
      = renderElem "exclude" (boolS m.Exclude) ++ rest from by
    simp [boolField, renderFields]]
  exact hstep

theorem epSem_vnicGroupId (closer : List Char) (l : List String) (rest : List Char)
    (r : EdgeFirewallEndpoint × List Char) :
    ∀ (st : EdgeFirewallEndpoint),
      LoopSem edgeFirewallEndpointH closer {st with VnicGroupIds := st.VnicGroupIds ++ l} rest r →
      LoopSem edgeFirewallEndpointH closer st (renderFields (listStrField "vnicGroupId" l) ++ rest) r := by
  induction l with
  | nil =>
    intro st hcont
    cases st
    simpa [listStrField, renderFields] using hcont
  | cons a as ih =>
    intro st hcont
    have hrs := readSimple_escape "vnicGroupId".data a.data (renderFields (listStrField "vnicGroupId" as) ++ rest)
    simp at hrs
    have hh : edgeFirewallEndpointH st "vnicGroupId".data
        ((escS a).data ++ ('<' :: ('/' :: ("vnicGroupId".data ++ ('>' :: (renderFields (listStrField "vnicGroupId" as) ++ rest))))))
        = some ({st with VnicGroupIds := st.VnicGroupIds ++ [a]}, (renderFields (listStrField "vnicGroupId" as) ++ rest)) := by
      simp only [edgeFirewallEndpointH]
      rw [if_neg (by decide), if_pos trivial]
      simp [readStrF, escS_data, hrs, strMk_data]
    have hcont' : LoopSem edgeFirewallEndpointH closer
        {({st with VnicGroupIds := st.VnicGroupIds ++ [a]}) with VnicGroupIds :=
          ({st with VnicGroupIds := st.VnicGroupIds ++ [a]}).VnicGroupIds ++ as} rest r := by
      cases st
      simpa [List.append_assoc] using hcont
    have hstep := loopSem_elem edgeFirewallEndpointH closer "vnicGroupId" (escS a)
        (renderFields (listStrField "vnicGroupId" as) ++ rest) st
        {st with VnicGroupIds := st.VnicGroupIds ++ [a]} r (by decide) (by decide) hh
        (ih _ hcont')
    rw [show renderFields (listStrField "vnicGroupId" (a :: as)) ++ rest
        = renderElem "vnicGroupId" (escS a) ++ (renderFields (listStrField "vnicGroupId" as) ++ rest) from by
      simp [listStrField, renderFields]]
    exact hstep

theorem epSem_groupingObjectId (closer : List Char) (l : List String) (rest : List Char)
    (r : EdgeFirewallEndpoint × List Char) :
    ∀ (st : EdgeFirewallEndpoint),
      LoopSem edgeFirewallEndpointH closer {st with GroupingObjectIds := st.GroupingObjectIds ++ l} rest r →
      LoopSem edgeFirewallEndpointH closer st (renderFields (listStrField "groupingObjectId" l) ++ rest) r := by
  induction l with
  | nil =>
    intro st hcont
    cases st
    simpa [listStrField, renderFields] using hcont
  | cons a as ih =>
    intro st hcont
    have hrs := readSimple_escape "groupingObjectId".data a.data (renderFields (listStrField "groupingObjectId" as) ++ rest)
    simp at hrs
    have hh : edgeFirewallEndpointH st "groupingObjectId".data
        ((escS a).data ++ ('<' :: ('/' :: ("groupingObjectId".data ++ ('>' :: (renderFields (listStrField "groupingObjectId" as) ++ rest))))))
        = some ({st with GroupingObjectIds := st.GroupingObjectIds ++ [a]}, (renderFields (listStrField "groupingObjectId" as) ++ rest)) := by
      simp only [edgeFirewallEndpointH]
      rw [if_neg (by decide), if_neg (by decide), if_pos trivial]
      simp [readStrF, escS_data, hrs, strMk_data]
    have hcont' : LoopSem edgeFirewallEndpointH closer
        {({st with GroupingObjectIds := st.GroupingObjectIds ++ [a]}) with GroupingObjectIds :=
          ({st with GroupingObjectIds := st.GroupingObjectIds ++ [a]}).GroupingObjectIds ++ as} rest r := by
      cases st
      simpa [List.append_assoc] using hcont
    have hstep := loopSem_elem edgeFirewallEndpointH closer "groupingObjectId" (escS a)
        (renderFields (listStrField "groupingObjectId" as) ++ rest) st
        {st with GroupingObjectIds := st.GroupingObjectIds ++ [a]} r (by decide) (by decide) hh
        (ih _ hcont')
    rw [show renderFields (listStrField "groupingObjectId" (a :: as)) ++ rest
        = renderElem "groupingObjectId" (escS a) ++ (renderFields (listStrField "groupingObjectId" as) ++ rest) from by
      simp [listStrField, renderFields]]
    exact hstep

theorem epSem_ipAddress (closer : List Char) (l : List String) (rest : List Char)
    (r : EdgeFirewallEndpoint × List Char) :
    ∀ (st : EdgeFirewallEndpoint),
      LoopSem edgeFirewallEndpointH closer {st with IpAddresses := st.IpAddresses ++ l} rest r →
      LoopSem edgeFirewallEndpointH closer st (renderFields (listStrField "ipAddress" l) ++ rest) r := by
  induction l with
  | nil =>
    intro st hcont
    cases st
    simpa [listStrField, renderFields] using hcont
  | cons a as ih =>
    intro st hcont
    have hrs := readSimple_escape "ipAddress".data a.data (renderFields (listStrField "ipAddress" as) ++ rest)
    simp at hrs
    have hh : edgeFirewallEndpointH st "ipAddress".data
        ((escS a).data ++ ('<' :: ('/' :: ("ipAddress".data ++ ('>' :: (renderFields (listStrField "ipAddress" as) ++ rest))))))
        = some ({st with IpAddresses := st.IpAddresses ++ [a]}, (renderFields (listStrField "ipAddress" as) ++ rest)) := by
      simp only [edgeFirewallEndpointH]
      rw [if_neg (by decide), if_neg (by decide), if_neg (by decide), if_pos trivial]
      simp [readStrF, escS_data, hrs, strMk_data]
    have hcont' : LoopSem edgeFirewallEndpointH closer
        {({st with IpAddresses := st.IpAddresses ++ [a]}) with IpAddresses :=
          ({st with IpAddresses := st.IpAddresses ++ [a]}).IpAddresses ++ as} rest r := by
      cases st
      simpa [List.append_assoc] using hcont
    have hstep := loopSem_elem edgeFirewallEndpointH closer "ipAddress" (escS a)
        (renderFields (listStrField "ipAddress" as) ++ rest) st
        {st with IpAddresses := st.IpAddresses ++ [a]} r (by decide) (by decide) hh
        (ih _ hcont')
    rw [show renderFields (listStrField "ipAddress" (a :: as)) ++ rest
        = renderElem "ipAddress" (escS a) ++ (renderFields (listStrField "ipAddress" as) ++ rest) from by
      simp [listStrField, renderFields]]
    exact hstep

theorem endpointAssembly (closer : List Char) (hc : ∀ c ∈ closer, (c == '>') = false)
    (m : EdgeFirewallEndpoint) (rest : List Char) :
    LoopSem edgeFirewallEndpointH closer EdgeFirewallEndpoint.zero
      (renderFields (edgeFirewallEndpointFields m) ++ ('<' :: ('/' :: (closer ++ ('>' :: rest)))))
      (m, rest) := by
  simp only [edgeFirewallEndpointFields, renderFields_append, List.append_assoc]
  refine epSem_exclude closer m _ _ _ ?_
  refine epSem_vnicGroupId closer m.VnicGroupIds _ _ _ ?_
  refine epSem_groupingObjectId closer m.GroupingObjectIds _ _ _ ?_
  refine epSem_ipAddress closer m.IpAddresses _ _ _ ?_
  exact loopSem_close edgeFirewallEndpointH closer hc m rest

theorem appSem_applicationId (closer : List Char) (m st : EdgeFirewallApplication) (rest : List Char)
    (r : EdgeFirewallApplication × List Char)
    (hst : st.ID = "")
    (hcont : LoopSem edgeFirewallApplicationH closer {st with ID := m.ID} rest r) :
    LoopSem edgeFirewallApplicationH closer st (renderFields (optStrField "applicationId" m.ID) ++ rest) r := by
  by_cases h : m.ID = ""
  · have hst' : ({st with ID := m.ID}) = st := by
      cases st; simp_all
    rw [hst'] at hcont
    simpa [optStrField, h, renderFields] using hcont
  ·
    have hrs := readSimple_escape "applicationId".data m.ID.data rest
    simp at hrs
    have hh : edgeFirewallApplicationH st "applicationId".data
        ((escS m.ID).data ++ ('<' :: ('/' :: ("applicationId".data ++ ('>' :: rest)))))
        = some ({st with ID := m.ID}, rest) := by
      simp only [edgeFirewallApplicationH]
      rw [if_pos trivial]
      simp [readStrF, escS_data, hrs, strMk_data]
    have hstep := loopSem_elem edgeFirewallApplicationH closer "applicationId" (escS m.ID) rest st
        {st with ID := m.ID} r (by decide) (by decide) hh hcont
    rw [show renderFields (optStrField "applicationId" m.ID) ++ rest
        = renderElem "applicationId" (escS m.ID) ++ rest from by
      simp [optStrField, h, renderFields]]
    exact hstep

theorem appSem_service (closer : List Char) (l : List EdgeFirewallApplicationService) (rest : List Char)
    (r : EdgeFirewallApplication × List Char) :
    ∀ (st : EdgeFirewallApplication),
      LoopSem edgeFirewallApplicationH closer {st with Services := st.Services ++ l} rest r →
      LoopSem edgeFirewallApplicationH closer st
        (renderFields (listNestedField "service" (List.map edgeFirewallApplicationServiceFields l)) ++ rest) r := by
  induction l with
  | nil =>
    intro st hcont
    cases st
    simpa [listNestedField, renderFields] using hcont
  | cons a as ih =>
    intro st hcont
    have hrun : runNested edgeFirewallApplicationServiceH "service".data EdgeFirewallApplicationService.zero
        ((nestedS (edgeFirewallApplicationServiceFields a)).data ++ ('<' :: ('/' :: ("service".data ++ ('>' :: (renderFields (listNestedField "service" (List.map edgeFirewallApplicationServiceFields as)) ++ rest))))))
        = some (a, (renderFields (listNestedField "service" (List.map edgeFirewallApplicationServiceFields as)) ++ rest)) := by
      unfold runNested
      exact serviceAssembly "service".data (by decide) a (renderFields (listNestedField "service" (List.map edgeFirewallApplicationServiceFields as)) ++ rest) _ (Nat.lt_succ_self _)
    simp at hrun
    have hh : edgeFirewallApplicationH st "service".data
        ((nestedS (edgeFirewallApplicationServiceFields a)).data ++ ('<' :: ('/' :: ("service".data ++ ('>' :: (renderFields (listNestedField "service" (List.map edgeFirewallApplicationServiceFields as)) ++ rest))))))
        = some ({st with Services := st.Services ++ [a]}, (renderFields (listNestedField "service" (List.map edgeFirewallApplicationServiceFields as)) ++ rest)) := by
      simp only [edgeFirewallApplicationH]
      rw [if_neg (by decide), if_pos trivial]
      simp [hrun]
    have hcont' : LoopSem edgeFirewallApplicationH closer
        {({st with Services := st.Services ++ [a]}) with Services :=
          ({st with Services := st.Services ++ [a]}).Services ++ as} rest r := by
      cases st
      simpa [List.append_assoc] using hcont
    have hstep := loopSem_elem edgeFirewallApplicationH closer "service" (nestedS (edgeFirewallApplicationServiceFields a))
        (renderFields (listNestedField "service" (List.map edgeFirewallApplicationServiceFields as)) ++ rest) st
        {st with Services := st.Services ++ [a]} r (by decide) (by decide) hh
        (ih _ hcont')
    rw [show renderFields (listNestedField "service" (List.map edgeFirewallApplicationServiceFields (a :: as))) ++ rest
        = renderElem "service" (nestedS (edgeFirewallApplicationServiceFields a)) ++ (renderFields (listNestedField "service" (List.map edgeFirewallApplicationServiceFields as)) ++ rest) from by
      simp [listNestedField, renderFields]]
    exact hstep

theorem applicationAssembly (closer : List Char) (hc : ∀ c ∈ closer, (c == '>') = false)
    (m : EdgeFirewallApplication) (rest : List Char) :
    LoopSem edgeFirewallApplicationH closer EdgeFirewallApplication.zero
      (renderFields (edgeFirewallApplicationFields m) ++ ('<' :: ('/' :: (closer ++ ('>' :: rest)))))
      (m, rest) := by
  simp only [edgeFirewallApplicationFields, renderFields_append, List.append_assoc]
  refine appSem_applicationId closer m _ _ _ rfl ?_
  refine appSem_service closer m.Services _ _ _ ?_
  exact loopSem_close edgeFirewallApplicationH closer hc m rest

theorem polSem_loggingEnabled (closer : List Char) (m st : FirewallDefaultPolicy) (rest : List Char)
    (r : FirewallDefaultPolicy × List Char)
    (hcont : LoopSem firewallDefaultPolicyH closer {st with LoggingEnabled := m.LoggingEnabled} rest r) :
    LoopSem firewallDefaultPolicyH closer st (renderFields (boolField "loggingEnabled" m.LoggingEnabled) ++ rest) r := by
  have hrs := readSimple_boolChars "loggingEnabled".data m.LoggingEnabled rest
  simp at hrs
  have hh : firewallDefaultPolicyH st "loggingEnabled".data
      ((boolS m.LoggingEnabled).data ++ ('<' :: ('/' :: ("loggingEnabled".data ++ ('>' :: rest)))))
      = some ({st with LoggingEnabled := m.LoggingEnabled}, rest) := by
    simp only [firewallDefaultPolicyH]
    rw [if_pos trivial]
    simp [readBoolF, boolS_data, hrs, parseGoBool_boolChars]
  have hstep := loopSem_elem firewallDefaultPolicyH closer "loggingEnabled" (boolS m.LoggingEnabled) rest st
      {st with LoggingEnabled := m.LoggingEnabled} r (by decide) (by decide) hh hcont
  rw [show renderFields (boolField "loggingEnabled" m.LoggingEnabled) ++ rest
      = renderElem "loggingEnabled" (boolS m.LoggingEnabled) ++ rest from by
    simp [boolField, renderFields]]
  exact hstep

theorem polSem_action (closer : List Char) (m st : FirewallDefaultPolicy) (rest : List Char)
    (r : FirewallDefaultPolicy × List Char)
    (hcont : LoopSem firewallDefaultPolicyH closer {st with Action := m.Action} rest r) :
    LoopSem firewallDefaultPolicyH closer st (renderFields (strField "action" m.Action) ++ rest) r := by
  have hrs := readSimple_escape "action".data m.Action.data rest
  simp at hrs
  have hh : firewallDefaultPolicyH st "action".data
      ((escS m.Action).data ++ ('<' :: ('/' :: ("action".data ++ ('>' :: rest)))))
      = some ({st with Action := m.Action}, rest) := by
    simp only [firewallDefaultPolicyH]
    rw [if_neg (by decide), if_pos trivial]
    simp [readStrF, escS_data, hrs, strMk_data]
  have hstep := loopSem_elem firewallDefaultPolicyH closer "action" (escS m.Action) rest st
      {st with Action := m.Action} r (by decide) (by decide) hh hcont
  rw [show renderFields (strField "action" m.Action) ++ rest
      = renderElem "action" (escS m.Action) ++ rest from by
    simp [strField, renderFields]]
  exact hstep

theorem policyAssembly (closer : List Char) (hc : ∀ c ∈ closer, (c == '>') = false)
    (m : FirewallDefaultPolicy) (rest : List Char) :
    LoopSem firewallDefaultPolicyH closer FirewallDefaultPolicy.zero
      (renderFields (firewallDefaultPolicyFields m) ++ ('<' :: ('/' :: (closer ++ ('>' :: rest)))))
      (m, rest) := by
  simp only [firewallDefaultPolicyFields, renderFields_append, List.append_assoc]
  refine polSem_loggingEnabled closer m _ _ _ ?_
  refine polSem_action closer m _ _ _ ?_
  exact loopSem_close firewallDefaultPolicyH closer hc m rest

theorem monSem_monitorId (closer : List Char) (m st : LbMonitor) (rest : List Char)
    (r : LbMonitor × List Char)
    (hst : st.ID = "")
    (hcont : LoopSem lbMonitorH closer {st with ID := m.ID} rest r) :
    LoopSem lbMonitorH closer st (renderFields (optStrField "monitorId" m.ID) ++ rest) r := by
  by_cases h : m.ID = ""
  · have hst' : ({st with ID := m.ID}) = st := by
      cases st; simp_all
    rw [hst'] at hcont
    simpa [optStrField, h, renderFields] using hcont
  ·
    have hrs := readSimple_escape "monitorId".data m.ID.data rest
    simp at hrs
    have hh : lbMonitorH st "monitorId".data
        ((escS m.ID).data ++ ('<' :: ('/' :: ("monitorId".data ++ ('>' :: rest)))))
        = some ({st with ID := m.ID}, rest) := by
      simp only [lbMonitorH]
      rw [if_pos trivial]
      simp [readStrF, escS_data, hrs, strMk_data]
    have hstep := loopSem_elem lbMonitorH closer "monitorId" (escS m.ID) rest st
        {st with ID := m.ID} r (by decide) (by decide) hh hcont
    rw [show renderFields (optStrField "monitorId" m.ID) ++ rest
        = renderElem "monitorId" (escS m.ID) ++ rest from by
      simp [optStrField, h, renderFields]]
    exact hstep

theorem monSem_type (closer : List Char) (m st : LbMonitor) (rest : List Char)
    (r : LbMonitor × List Char)
    (hcont : LoopSem lbMonitorH closer {st with Type_ := m.Type_} rest r) :
    LoopSem lbMonitorH closer st (renderFields (strField "type" m.Type_) ++ rest) r := by
  have hrs := readSimple_escape "type".data m.Type_.data rest
  simp at hrs
  have hh : lbMonitorH st "type".data
      ((escS m.Type_).data ++ ('<' :: ('/' :: ("type".data ++ ('>' :: rest)))))
      = some ({st with Type_ := m.Type_}, rest) := by
    simp only [lbMonitorH]
    rw [if_neg (by decide), if_pos trivial]
    simp [readStrF, escS_data, hrs, strMk_data]
  have hstep := loopSem_elem lbMonitorH closer "type" (escS m.Type_) rest st
      {st with Type_ := m.Type_} r (by decide) (by decide) hh hcont
  rw [show renderFields (strField "type" m.Type_) ++ rest
      = renderElem "type" (escS m.Type_) ++ rest from by
    simp [strField, renderFields]]
  exact hstep

theorem monSem_interval (closer : List Char) (m st : LbMonitor) (rest : List Char)
    (r : LbMonitor × List Char)
    (hst : st.Interval = 0)
    (hcont : LoopSem lbMonitorH closer {st with Interval := m.Interval} rest r) :
    LoopSem lbMonitorH closer st (renderFields (optIntField "interval" m.Interval) ++ rest) r := by
  by_cases h : m.Interval = 0
  · have hst' : ({st with Interval := m.Interval}) = st := by
      cases st; simp_all
    rw [hst'] at hcont
    simpa [optIntField, h, renderFields] using hcont
  ·
    have hrs := readSimple_intChars "interval".data m.Interval rest
    simp at hrs
    have hh : lbMonitorH st "interval".data
        ((intS m.Interval).data ++ ('<' :: ('/' :: ("interval".data ++ ('>' :: rest)))))
        = some ({st with Interval := m.Interval}, rest) := by
      simp only [lbMonitorH]
      rw [if_neg (by decide), if_neg (by decide), if_pos trivial]
      simp [readIntF, intS_data, hrs, xmlTrim_intChars, parseIntChars_intChars]
    have hstep := loopSem_elem lbMonitorH closer "interval" (intS m.Interval) rest st
        {st with Interval := m.Interval} r (by decide) (by decide) hh hcont
    rw [show renderFields (optIntField "interval" m.Interval) ++ rest
        = renderElem "interval" (intS m.Interval) ++ rest from by
      simp [optIntField, h, renderFields]]
    exact hstep

theorem monSem_timeout (closer : List Char) (m st : LbMonitor) (rest : List Char)
    (r : LbMonitor × List Char)
    (hst : st.Timeout = 0)
    (hcont : LoopSem lbMonitorH closer {st with Timeout := m.Timeout} rest r) :
    LoopSem lbMonitorH closer st (renderFields (optIntField "timeout" m.Timeout) ++ rest) r := by
  by_cases h : m.Timeout = 0
  · have hst' : ({st with Timeout := m.Timeout}) = st := by
      cases st; simp_all
    rw [hst'] at hcont
    simpa [optIntField, h, renderFields] using hcont
  ·
    have hrs := readSimple_intChars "timeout".data m.Timeout rest
    simp at hrs
    have hh : lbMonitorH st "timeout".data
        ((intS m.Timeout).data ++ ('<' :: ('/' :: ("timeout".data ++ ('>' :: rest)))))
        = some ({st with Timeout := m.Timeout}, rest) := by
      simp only [lbMonitorH]
      rw [if_neg (by decide), if_neg (by decide), if_neg (by decide), if_pos trivial]
      simp [readIntF, intS_data, hrs, xmlTrim_intChars, parseIntChars_intChars]
    have hstep := loopSem_elem lbMonitorH closer "timeout" (intS m.Timeout) rest st
        {st with Timeout := m.Timeout} r (by decide) (by decide) hh hcont
    rw [show renderFields (optIntField "timeout" m.Timeout) ++ rest
        = renderElem "timeout" (intS m.Timeout) ++ rest from by
      simp [optIntField, h, renderFields]]
    exact hstep

theorem monSem_maxRetries (closer : List Char) (m st : LbMonitor) (rest : List Char)
    (r : LbMonitor × List Char)
    (hst : st.MaxRetries = 0)
    (hcont : LoopSem lbMonitorH closer {st with MaxRetries := m.MaxRetries} rest r) :
    LoopSem lbMonitorH closer st (renderFields (optIntField "maxRetries" m.MaxRetries) ++ rest) r := by
  by_cases h : m.MaxRetries = 0
  · have hst' : ({st with MaxRetries := m.MaxRetries}) = st := by
      cases st; simp_all
    rw [hst'] at hcont
    simpa [optIntField, h, renderFields] using hcont
  ·
    have hrs := readSimple_intChars "maxRetries".data m.MaxRetries rest
    simp at hrs
    have hh : lbMonitorH st "maxRetries".data
        ((intS m.MaxRetries).data ++ ('<' :: ('/' :: ("maxRetries".data ++ ('>' :: rest)))))
        = some ({st with MaxRetries := m.MaxRetries}, rest) := by
      simp only [lbMonitorH]
      rw [if_neg (by decide), if_neg (by decide), if_neg (by decide), if_neg (by decide), if_pos trivial]
      simp [readIntF, intS_data, hrs, xmlTrim_intChars, parseIntChars_intChars]
    have hstep := loopSem_elem lbMonitorH closer "maxRetries" (intS m.MaxRetries) rest st
        {st with MaxRetries := m.MaxRetries} r (by decide) (by decide) hh hcont
    rw [show renderFields (optIntField "maxRetries" m.MaxRetries) ++ rest
        = renderElem "maxRetries" (intS m.MaxRetries) ++ rest from by
      simp [optIntField, h, renderFields]]
    exact hstep

theorem monSem_method (closer : List Char) (m st : LbMonitor) (rest : List Char)
    (r : LbMonitor × List Char)
    (hst : st.Method = "")
    (hcont : LoopSem lbMonitorH closer {st with Method := m.Method} rest r) :
    LoopSem lbMonitorH closer st (renderFields (optStrField "method" m.Method) ++ rest) r := by
  by_cases h : m.Method = ""
  · have hst' : ({st with Method := m.Method}) = st := by
      cases st; simp_all
    rw [hst'] at hcont
    simpa [optStrField, h, renderFields] using hcont
  ·
    have hrs := readSimple_escape "method".data m.Method.data rest
    simp at hrs
    have hh : lbMonitorH st "method".data
        ((escS m.Method).data ++ ('<' :: ('/' :: ("method".data ++ ('>' :: rest)))))
        = some ({st with Method := m.Method}, rest) := by
      simp only [lbMonitorH]
      rw [if_neg (by decide), if_neg (by decide), if_neg (by decide), if_neg (by decide), if_neg (by decide), if_pos trivial]
      simp [readStrF, escS_data, hrs, strMk_data]
    have hstep := loopSem_elem lbMonitorH closer "method" (escS m.Method) rest st
        {st with Method := m.Method} r (by decide) (by decide) hh hcont
    rw [show renderFields (optStrField "method" m.Method) ++ rest
        = renderElem "method" (escS m.Method) ++ rest from by
      simp [optStrField, h, renderFields]]
    exact hstep

theorem monSem_url (closer : List Char) (m st : LbMonitor) (rest : List Char)
    (r : LbMonitor × List Char)
    (hst : st.URL = "")
    (hcont : LoopSem lbMonitorH closer {st with URL := m.URL} rest r) :
    LoopSem lbMonitorH closer st (renderFields (optStrField "url" m.URL) ++ rest) r := by
  by_cases h : m.URL = ""
  · have hst' : ({st with URL := m.URL}) = st := by
      cases st; simp_all
    rw [hst'] at hcont
    simpa [optStrField, h, renderFields] using hcont
  ·
    have hrs := readSimple_escape "url".data m.URL.data rest
    simp at hrs
    have hh : lbMonitorH st "url".data
        ((escS m.URL).data ++ ('<' :: ('/' :: ("url".data ++ ('>' :: rest)))))
        = some ({st with URL := m.URL}, rest) := by
      simp only [lbMonitorH]
      rw [if_neg (by decide), if_neg (by decide), if_neg (by decide), if_neg (by decide), if_neg (by decide), if_neg (by decide), if_pos trivial]
      simp [readStrF, escS_data, hrs, strMk_data]
    have hstep := loopSem_elem lbMonitorH closer "url" (escS m.URL) rest st
        {st with URL := m.URL} r (by decide) (by decide) hh hcont
    rw [show renderFields (optStrField "url" m.URL) ++ rest
        = renderElem "url" (escS m.URL) ++ rest from by
      simp [optStrField, h, renderFields]]
    exact hstep

theorem monSem_expected (closer : List Char) (m st : LbMonitor) (rest : List Char)
    (r : LbMonitor × List Char)
    (hst : st.Expected = "")
    (hcont : LoopSem lbMonitorH closer {st with Expected := m.Expected} rest r) :
    LoopSem lbMonitorH closer st (renderFields (optStrField "expected" m.Expected) ++ rest) r := by
  by_cases h : m.Expected = ""
  · have hst' : ({st with Expected := m.Expected}) = st := by
      cases st; simp_all
    rw [hst'] at hcont
    simpa [optStrField, h, renderFields] using hcont
  ·
    have hrs := readSimple_escape "expected".data m.Expected.data rest
    simp at hrs
    have hh : lbMonitorH st "expected".data
        ((escS m.Expected).data ++ ('<' :: ('/' :: ("expected".data ++ ('>' :: rest)))))
        = some ({st with Expected := m.Expected}, rest) := by
      simp only [lbMonitorH]
      rw [if_neg (by decide), if_neg (by decide), if_neg (by decide), if_neg (by decide), if_neg (by decide), if_neg (by decide), if_neg (by decide), if_pos trivial]
      simp [readStrF, escS_data, hrs, strMk_data]
    have hstep := loopSem_elem lbMonitorH closer "expected" (escS m.Expected) rest st
        {st with Expected := m.Expected} r (by decide) (by decide) hh hcont
    rw [show renderFields (optStrField "expected" m.Expected) ++ rest
        = renderElem "expected" (escS m.Expected) ++ rest from by
      simp [optStrField, h, renderFields]]
    exact hstep

theorem monSem_name (closer : List Char) (m st : LbMonitor) (rest : List Char)
    (r : LbMonitor × List Char)
    (hst : st.Name = "")
    (hcont : LoopSem lbMonitorH closer {st with Name := m.Name} rest r) :
    LoopSem lbMonitorH closer st (renderFields (optStrField "name" m.Name) ++ rest) r := by
  by_cases h : m.Name = ""
  · have hst' : ({st with Name := m.Name}) = st := by
      cases st; simp_all
    rw [hst'] at hcont
    simpa [optStrField, h, renderFields] using hcont
  ·
    have hrs := readSimple_escape "name".data m.Name.data rest
    simp at hrs
    have hh : lbMonitorH st "name".data
        ((escS m.Name).data ++ ('<' :: ('/' :: ("name".data ++ ('>' :: rest)))))
        = some ({st with Name := m.Name}, rest) := by
      simp only [lbMonitorH]
      rw [if_neg (by decide), if_neg (by decide), if_neg (by decide), if_neg (by decide), if_neg (by decide), if_neg (by decide), if_neg (by decide), if_neg (by decide), if_pos trivial]
      simp [readStrF, escS_data, hrs, strMk_data]
    have hstep := loopSem_elem lbMonitorH closer "name" (escS m.Name) rest st
        {st with Name := m.Name} r (by decide) (by decide) hh hcont
    rw [show renderFields (optStrField "name" m.Name) ++ rest
        = renderElem "name" (escS m.Name) ++ rest from by
      simp [optStrField, h, renderFields]]
    exact hstep

theorem monSem_send (closer : List Char) (m st : LbMonitor) (rest : List Char)
    (r : LbMonitor × List Char)
    (hst : st.Send = "")
    (hcont : LoopSem lbMonitorH closer {st with Send := m.Send} rest r) :
    LoopSem lbMonitorH closer st (renderFields (optStrField "send" m.Send) ++ rest) r := by
  by_cases h : m.Send = ""
  · have hst' : ({st with Send := m.Send}) = st := by
      cases st; simp_all
    rw [hst'] at hcont
    simpa [optStrField, h, renderFields] using hcont
  ·
    have hrs := readSimple_escape "send".data m.Send.data rest
    simp at hrs
    have hh : lbMonitorH st "send".data
        ((escS m.Send).data ++ ('<' :: ('/' :: ("send".data ++ ('>' :: rest)))))
        = some ({st with Send := m.Send}, rest) := by
      simp only [lbMonitorH]
      rw [if_neg (by decide), if_neg (by decide), if_neg (by decide), if_neg (by decide), if_neg (by decide), if_neg (by decide), if_neg (by decide), if_neg (by decide), if_neg (by decide), if_pos trivial]
      simp [readStrF, escS_data, hrs, strMk_data]
    have hstep := loopSem_elem lbMonitorH closer "send" (escS m.Send) rest st
        {st with Send := m.Send} r (by decide) (by decide) hh hcont
    rw [show renderFields (optStrField "send" m.Send) ++ rest
        = renderElem "send" (escS m.Send) ++ rest from by
      simp [optStrField, h, renderFields]]
    exact hstep

theorem monSem_receive (closer : List Char) (m st : LbMonitor) (rest : List Char)
    (r : LbMonitor × List Char)
    (hst : st.Receive = "")
    (hcont : LoopSem lbMonitorH closer {st with Receive := m.Receive} rest r) :
    LoopSem lbMonitorH closer st (renderFields (optStrField "receive" m.Receive) ++ rest) r := by
  by_cases h : m.Receive = ""
  · have hst' : ({st with Receive := m.Receive}) = st := by
      cases st; simp_all
    rw [hst'] at hcont
    simpa [optStrField, h, renderFields] using hcont
  ·
    have hrs := readSimple_escape "receive".data m.Receive.data rest
    simp at hrs
    have hh : lbMonitorH st "receive".data
        ((escS m.Receive).data ++ ('<' :: ('/' :: ("receive".data ++ ('>' :: rest)))))
        = some ({st with Receive := m.Receive}, rest) := by
      simp only [lbMonitorH]
      rw [if_neg (by decide), if_neg (by decide), if_neg (by decide), if_neg (by decide), if_neg (by decide), if_neg (by decide), if_neg (by decide), if_neg (by decide), if_neg (by decide), if_neg (by decide), if_pos trivial]
      simp [readStrF, escS_data, hrs, strMk_data]
    have hstep := loopSem_elem lbMonitorH closer "receive" (escS m.Receive) rest st
        {st with Receive := m.Receive} r (by decide) (by decide) hh hcont
    rw [show renderFields (optStrField "receive" m.Receive) ++ rest
        = renderElem "receive" (escS m.Receive) ++ rest from by
      simp [optStrField, h, renderFields]]
    exact hstep

theorem monSem_extension (closer : List Char) (m st : LbMonitor) (rest : List Char)
    (r : LbMonitor × List Char)
    (hst : st.Extension = "")
    (hcont : LoopSem lbMonitorH closer {st with Extension := m.Extension} rest r) :
    LoopSem lbMonitorH closer st (renderFields (optStrField "extension" m.Extension) ++ rest) r := by
  by_cases h : m.Extension = ""
  · have hst' : ({st with Extension := m.Extension}) = st := by
      cases st; simp_all
    rw [hst'] at hcont
    simpa [optStrField, h, renderFields] using hcont
  ·
    have hrs := readSimple_escape "extension".data m.Extension.data rest
    simp at hrs
    have hh : lbMonitorH st "extension".data
        ((escS m.Extension).data ++ ('<' :: ('/' :: ("extension".data ++ ('>' :: rest)))))
        = some ({st with Extension := m.Extension}, rest) := by
      simp only [lbMonitorH]
      rw [if_neg (by decide), if_neg (by decide), if_neg (by decide), if_neg (by decide), if_neg (by decide), if_neg (by decide), if_neg (by decide), if_neg (by decide), if_neg (by decide), if_neg (by decide), if_neg (by decide), if_pos trivial]
      simp [readStrF, escS_data, hrs, strMk_data]
    have hstep := loopSem_elem lbMonitorH closer "extension" (escS m.Extension) rest st
        {st with Extension := m.Extension} r (by decide) (by decide) hh hcont
    rw [show renderFields (optStrField "extension" m.Extension) ++ rest
        = renderElem "extension" (escS m.Extension) ++ rest from by
      simp [optStrField, h, renderFields]]
    exact hstep

theorem lbMonitorAssembly (closer : List Char) (hc : ∀ c ∈ closer, (c == '>') = false)
    (m : LbMonitor) (rest : List Char) :
    LoopSem lbMonitorH closer LbMonitor.zero
      (renderFields (lbMonitorFields m) ++ ('<' :: ('/' :: (closer ++ ('>' :: rest)))))
      (m, rest) := by
  simp only [lbMonitorFields, renderFields_append, List.append_assoc]
  refine monSem_monitorId closer m _ _ _ rfl ?_
  refine monSem_type closer m _ _ _ ?_
  refine monSem_interval closer m _ _ _ rfl ?_
  refine monSem_timeout closer m _ _ _ rfl ?_
  refine monSem_maxRetries closer m _ _ _ rfl ?_
  refine monSem_method closer m _ _ _ rfl ?_
  refine monSem_url closer m _ _ _ rfl ?_
  refine monSem_expected closer m _ _ _ rfl ?_
  refine monSem_name closer m _ _ _ rfl ?_
  refine monSem_send closer m _ _ _ rfl ?_
  refine monSem_receive closer m _ _ _ rfl ?_
  refine monSem_extension closer m _ _ _ rfl ?_
  exact loopSem_close lbMonitorH closer hc m rest

theorem fwSem_enabled (closer : List Char) (m st : FirewallConfigWithXml) (rest : List Char)
    (r : FirewallConfigWithXml × List Char)
    (hcont : LoopSem firewallConfigH closer {st with Enabled := m.Enabled} rest r) :
    LoopSem firewallConfigH closer st (renderFields (boolField "enabled" m.Enabled) ++ rest) r := by
  have hrs := readSimple_boolChars "enabled".data m.Enabled rest
  simp at hrs
  have hh : firewallConfigH st "enabled".data
      ((boolS m.Enabled).data ++ ('<' :: ('/' :: ("enabled".data ++ ('>' :: rest)))))
      = some ({st with Enabled := m.Enabled}, rest) := by
    simp only [firewallConfigH]
    rw [if_pos trivial]
    simp [readBoolF, boolS_data, hrs, parseGoBool_boolChars]
  have hstep := loopSem_elem firewallConfigH closer "enabled" (boolS m.Enabled) rest st
      {st with Enabled := m.Enabled} r (by decide) (by decide) hh hcont
  rw [show renderFields (boolField "enabled" m.Enabled) ++ rest
      = renderElem "enabled" (boolS m.Enabled) ++ rest from by
    simp [boolField, renderFields]]
  exact hstep

theorem fwSem_defaultPolicy (closer : List Char) (m st : FirewallConfigWithXml) (rest : List Char)
    (r : FirewallConfigWithXml × List Char)
    (hcont : LoopSem firewallConfigH closer {st with DefaultPolicy := m.DefaultPolicy} rest r) :
    LoopSem firewallConfigH closer st
      (renderFields [("defaultPolicy", nestedS (firewallDefaultPolicyFields m.DefaultPolicy))] ++ rest) r := by
  have hrun : runNested firewallDefaultPolicyH "defaultPolicy".data FirewallDefaultPolicy.zero
      ((nestedS (firewallDefaultPolicyFields m.DefaultPolicy)).data ++ ('<' :: ('/' :: ("defaultPolicy".data ++ ('>' :: rest)))))
      = some (m.DefaultPolicy, rest) := by
    unfold runNested
    exact policyAssembly "defaultPolicy".data (by decide) m.DefaultPolicy rest _ (Nat.lt_succ_self _)
  simp at hrun
  have hh : firewallConfigH st "defaultPolicy".data
      ((nestedS (firewallDefaultPolicyFields m.DefaultPolicy)).data ++ ('<' :: ('/' :: ("defaultPolicy".data ++ ('>' :: rest)))))
      = some ({st with DefaultPolicy := m.DefaultPolicy}, rest) := by
    simp only [firewallConfigH]
    rw [if_neg (by decide), if_pos trivial]
    simp [hrun]
  have hstep := loopSem_elem firewallConfigH closer "defaultPolicy" (nestedS (firewallDefaultPolicyFields m.DefaultPolicy)) rest st
      {st with DefaultPolicy := m.DefaultPolicy} r (by decide) (by decide) hh hcont
  rw [show renderFields [("defaultPolicy", nestedS (firewallDefaultPolicyFields m.DefaultPolicy))] ++ rest
      = renderElem "defaultPolicy" (nestedS (firewallDefaultPolicyFields m.DefaultPolicy)) ++ rest from by
    simp [renderFields]]
  exact hstep

theorem fwSem_version (closer : List Char) (m st : FirewallConfigWithXml) (rest : List Char)
    (r : FirewallConfigWithXml × List Char)
    (hst : st.Version = "")
    (hcont : LoopSem firewallConfigH closer {st with Version := m.Version} rest r) :
    LoopSem firewallConfigH closer st (renderFields (optStrField "version" m.Version) ++ rest) r := by
  by_cases h : m.Version = ""
  · have hst' : ({st with Version := m.Version}) = st := by
      cases st; simp_all
    rw [hst'] at hcont
    simpa [optStrField, h, renderFields] using hcont
  ·
    have hrs := readSimple_escape "version".data m.Version.data rest
    simp at hrs
    have hh : firewallConfigH st "version".data
        ((escS m.Version).data ++ ('<' :: ('/' :: ("version".data ++ ('>' :: rest)))))
        = some ({st with Version := m.Version}, rest) := by
      simp only [firewallConfigH]
      rw [if_neg (by decide), if_neg (by decide), if_pos trivial]
      simp [readStrF, escS_data, hrs, strMk_data]
    have hstep := loopSem_elem firewallConfigH closer "version" (escS m.Version) rest st
        {st with Version := m.Version} r (by decide) (by decide) hh hcont
    rw [show renderFields (optStrField "version" m.Version) ++ rest
        = renderElem "version" (escS m.Version) ++ rest from by
      simp [optStrField, h, renderFields]]
    exact hstep

theorem fwSem_firewallRules (closer : List Char) (fr : Frag) (hwf : fr.wf = true)
    (s : String) (hfrr : s.data = fr.render) (st : FirewallConfigWithXml)
    (rest : List Char) (r : FirewallConfigWithXml × List Char)
    (hcont : LoopSem firewallConfigH closer {st with FirewallRules := ⟨s⟩} rest r) :
    LoopSem firewallConfigH closer st
      (renderFields (innerField "firewallRules" s) ++ rest) r := by
  have hcap := capture_frag "firewallRules".data (by decide) (by decide) fr hwf rest
  simp at hcap
  have hs : (⟨fr.render⟩ : String) = s := by
    rw [← hfrr]
  have hh : firewallConfigH st "firewallRules".data
      (s.data ++ ('<' :: ('/' :: ("firewallRules".data ++ ('>' :: rest)))))
      = some ({st with FirewallRules := ⟨s⟩}, rest) := by
    rw [hfrr]
    simp only [firewallConfigH]
    rw [if_neg (by decide), if_neg (by decide), if_neg (by decide), if_pos trivial]
    simp [readInnerF, hcap, hs]
  have hstep := loopSem_elem firewallConfigH closer "firewallRules" s rest st
      {st with FirewallRules := ⟨s⟩} r (by decide) (by decide) hh hcont
  rw [show renderFields (innerField "firewallRules" s) ++ rest
      = renderElem "firewallRules" s ++ rest from by
    simp [innerField, renderFields]]
  exact hstep

theorem fwSem_globalConfig (closer : List Char) (fr : Frag) (hwf : fr.wf = true)
    (s : String) (hfrr : s.data = fr.render) (st : FirewallConfigWithXml)
    (rest : List Char) (r : FirewallConfigWithXml × List Char)
    (hcont : LoopSem firewallConfigH closer {st with GlobalConfig := ⟨s⟩} rest r) :
    LoopSem firewallConfigH closer st
      (renderFields (innerField "globalConfig" s) ++ rest) r := by
  have hcap := capture_frag "globalConfig".data (by decide) (by decide) fr hwf rest
  simp at hcap
  have hs : (⟨fr.render⟩ : String) = s := by
    rw [← hfrr]
  have hh : firewallConfigH st "globalConfig".data
      (s.data ++ ('<' :: ('/' :: ("globalConfig".data ++ ('>' :: rest)))))
      = some ({st with GlobalConfig := ⟨s⟩}, rest) := by
    rw [hfrr]
    simp only [firewallConfigH]
    rw [if_neg (by decide), if_neg (by decide), if_neg (by decide), if_neg (by decide), if_pos trivial]
    simp [readInnerF, hcap, hs]
  have hstep := loopSem_elem firewallConfigH closer "globalConfig" s rest st
      {st with GlobalConfig := ⟨s⟩} r (by decide) (by decide) hh hcont
  rw [show renderFields (innerField "globalConfig" s) ++ rest
      = renderElem "globalConfig" s ++ rest from by
    simp [innerField, renderFields]]
  exact hstep

theorem firewallAssembly (closer : List Char) (hc : ∀ c ∈ closer, (c == '>') = false)
    (m : FirewallConfigWithXml)
    (fr1 fr2 : Frag) (hw1 : fr1.wf = true) (hw2 : fr2.wf = true)
    (h1 : m.FirewallRules.Text.data = fr1.render)
    (h2 : m.GlobalConfig.Text.data = fr2.render) (rest : List Char) :
    LoopSem firewallConfigH closer FirewallConfigWithXml.zero
      (renderFields (firewallConfigFields m) ++ ('<' :: ('/' :: (closer ++ ('>' :: rest)))))
      (m, rest) := by
  simp only [firewallConfigFields, renderFields_append, List.append_assoc]
  refine fwSem_enabled closer m _ _ _ ?_
  refine fwSem_defaultPolicy closer m _ _ _ ?_
  refine fwSem_version closer m _ _ _ rfl ?_
  refine fwSem_firewallRules closer fr1 hw1 m.FirewallRules.Text h1 _ _ _ ?_
  refine fwSem_globalConfig closer fr2 hw2 m.GlobalConfig.Text h2 _ _ _ ?_
  exact loopSem_close firewallConfigH closer hc m rest

theorem ruleSem_id (closer : List Char) (m st : EdgeFirewallRule) (rest : List Char)
    (r : EdgeFirewallRule × List Char)
    (hst : st.ID = "")
    (hcont : LoopSem edgeFirewallRuleH closer {st with ID := m.ID} rest r) :
    LoopSem edgeFirewallRuleH closer st (renderFields (optStrField "id" m.ID) ++ rest) r := by
  by_cases h : m.ID = ""
  · have hst' : ({st with ID := m.ID}) = st := by
      cases st; simp_all
    rw [hst'] at hcont
    simpa [optStrField, h, renderFields] using hcont
  ·
    have hrs := readSimple_escape "id".data m.ID.data rest
    simp at hrs
    have hh : edgeFirewallRuleH st "id".data
        ((escS m.ID).data ++ ('<' :: ('/' :: ("id".data ++ ('>' :: rest)))))
        = some ({st with ID := m.ID}, rest) := by
      simp only [edgeFirewallRuleH]
      rw [if_pos trivial]
      simp [readStrF, escS_data, hrs, strMk_data]
    have hstep := loopSem_elem edgeFirewallRuleH closer "id" (escS m.ID) rest st
        {st with ID := m.ID} r (by decide) (by decide) hh hcont
    rw [show renderFields (optStrField "id" m.ID) ++ rest
        = renderElem "id" (escS m.ID) ++ rest from by
      simp [optStrField, h, renderFields]]
    exact hstep

theorem ruleSem_name (closer : List Char) (m st : EdgeFirewallRule) (rest : List Char)
    (r : EdgeFirewallRule × List Char)
    (hst : st.Name = "")
    (hcont : LoopSem edgeFirewallRuleH closer {st with Name := m.Name} rest r) :
    LoopSem edgeFirewallRuleH closer st (renderFields (optStrField "name" m.Name) ++ rest) r := by
  by_cases h : m.Name = ""
  · have hst' : ({st with Name := m.Name}) = st := by
      cases st; simp_all
    rw [hst'] at hcont
    simpa [optStrField, h, renderFields] using hcont
  ·
    have hrs := readSimple_escape "name".data m.Name.data rest
    simp at hrs
    have hh : edgeFirewallRuleH st "name".data
        ((escS m.Name).data ++ ('<' :: ('/' :: ("name".data ++ ('>' :: rest)))))
        = some ({st with Name := m.Name}, rest) := by
      simp only [edgeFirewallRuleH]
      rw [if_neg (by decide), if_pos trivial]
      simp [readStrF, escS_data, hrs, strMk_data]
    have hstep := loopSem_elem edgeFirewallRuleH closer "name" (escS m.Name) rest st
        {st with Name := m.Name} r (by decide) (by decide) hh hcont
    rw [show renderFields (optStrField "name" m.Name) ++ rest
        = renderElem "name" (escS m.Name) ++ rest from by
      simp [optStrField, h, renderFields]]
    exact hstep

theorem ruleSem_ruleType (closer : List Char) (m st : EdgeFirewallRule) (rest : List Char)
    (r : EdgeFirewallRule × List Char)
    (hst : st.RuleType = "")
    (hcont : LoopSem edgeFirewallRuleH closer {st with RuleType := m.RuleType} rest r) :
    LoopSem edgeFirewallRuleH closer st (renderFields (optStrField "ruleType" m.RuleType) ++ rest) r := by
  by_cases h : m.RuleType = ""
  · have hst' : ({st with RuleType := m.RuleType}) = st := by
      cases st; simp_all
    rw [hst'] at hcont
    simpa [optStrField, h, renderFields] using hcont
  ·
    have hrs := readSimple_escape "ruleType".data m.RuleType.data rest
    simp at hrs
    have hh : edgeFirewallRuleH st "ruleType".data
        ((escS m.RuleType).data ++ ('<' :: ('/' :: ("ruleType".data ++ ('>' :: rest)))))
        = some ({st with RuleType := m.RuleType}, rest) := by
      simp only [edgeFirewallRuleH]
      rw [if_neg (by decide), if_neg (by decide), if_pos trivial]
      simp [readStrF, escS_data, hrs, strMk_data]
    have hstep := loopSem_elem edgeFirewallRuleH closer "ruleType" (escS m.RuleType) rest st
        {st with RuleType := m.RuleType} r (by decide) (by decide) hh hcont
    rw [show renderFields (optStrField "ruleType" m.RuleType) ++ rest
        = renderElem "ruleType" (escS m.RuleType) ++ rest from by
      simp [optStrField, h, renderFields]]
    exact hstep

theorem ruleSem_ruleTag (closer : List Char) (m st : EdgeFirewallRule) (rest : List Char)
    (r : EdgeFirewallRule × List Char)
    (hst : st.RuleTag = "")
    (hcont : LoopSem edgeFirewallRuleH closer {st with RuleTag := m.RuleTag} rest r) :
    LoopSem edgeFirewallRuleH closer st (renderFields (optStrField "ruleTag" m.RuleTag) ++ rest) r := by
  by_cases h : m.RuleTag = ""
  · have hst' : ({st with RuleTag := m.RuleTag}) = st := by
      cases st; simp_all
    rw [hst'] at hcont
    simpa [optStrField, h, renderFields] using hcont
  ·
    have hrs := readSimple_escape "ruleTag".data m.RuleTag.data rest
    simp at hrs
    have hh : edgeFirewallRuleH st "ruleTag".data
        ((escS m.RuleTag).data ++ ('<' :: ('/' :: ("ruleTag".data ++ ('>' :: rest)))))
        = some ({st with RuleTag := m.RuleTag}, rest) := by
      simp only [edgeFirewallRuleH]
      rw [if_neg (by decide), if_neg (by decide), if_neg (by decide), if_pos trivial]
      simp [readStrF, escS_data, hrs, strMk_data]
    have hstep := loopSem_elem edgeFirewallRuleH closer "ruleTag" (escS m.RuleTag) rest st
        {st with RuleTag := m.RuleTag} r (by decide) (by decide) hh hcont
    rw [show renderFields (optStrField "ruleTag" m.RuleTag) ++ rest
        = renderElem "ruleTag" (escS m.RuleTag) ++ rest from by
      simp [optStrField, h, renderFields]]
    exact hstep

theorem ruleSem_source (closer : List Char) (m st : EdgeFirewallRule) (rest : List Char)
    (r : EdgeFirewallRule × List Char)
    (hcont : LoopSem edgeFirewallRuleH closer {st with Source := m.Source} rest r) :
    LoopSem edgeFirewallRuleH closer st
      (renderFields [("source", nestedS (edgeFirewallEndpointFields m.Source))] ++ rest) r := by
  have hrun : runNested edgeFirewallEndpointH "source".data EdgeFirewallEndpoint.zero
      ((nestedS (edgeFirewallEndpointFields m.Source)).data ++ ('<' :: ('/' :: ("source".data ++ ('>' :: rest)))))
      = some (m.Source, rest) := by
    unfold runNested
    exact endpointAssembly "source".data (by decide) m.Source rest _ (Nat.lt_succ_self _)
  simp at hrun
  have hh : edgeFirewallRuleH st "source".data
      ((nestedS (edgeFirewallEndpointFields m.Source)).data ++ ('<' :: ('/' :: ("source".data ++ ('>' :: rest)))))
      = some ({st with Source := m.Source}, rest) := by
    simp only [edgeFirewallRuleH]
    rw [if_neg (by decide), if_neg (by decide), if_neg (by decide), if_neg (by decide), if_pos trivial]
    simp [hrun]
  have hstep := loopSem_elem edgeFirewallRuleH closer "source" (nestedS (edgeFirewallEndpointFields m.Source)) rest st
      {st with Source := m.Source} r (by decide) (by decide) hh hcont
  rw [show renderFields [("source", nestedS (edgeFirewallEndpointFields m.Source))] ++ rest
      = renderElem "source" (nestedS (edgeFirewallEndpointFields m.Source)) ++ rest from by
    simp [renderFields]]
  exact hstep

theorem ruleSem_destination (closer : List Char) (m st : EdgeFirewallRule) (rest : List Char)
    (r : EdgeFirewallRule × List Char)
    (hcont : LoopSem edgeFirewallRuleH closer {st with Destination := m.Destination} rest r) :
    LoopSem edgeFirewallRuleH closer st
      (renderFields [("destination", nestedS (edgeFirewallEndpointFields m.Destination))] ++ rest) r := by
  have hrun : runNested edgeFirewallEndpointH "destination".data EdgeFirewallEndpoint.zero
      ((nestedS (edgeFirewallEndpointFields m.Destination)).data ++ ('<' :: ('/' :: ("destination".data ++ ('>' :: rest)))))
      = some (m.Destination, rest) := by
    unfold runNested
    exact endpointAssembly "destination".data (by decide) m.Destination rest _ (Nat.lt_succ_self _)
  simp at hrun
  have hh : edgeFirewallRuleH st "destination".data
      ((nestedS (edgeFirewallEndpointFields m.Destination)).data ++ ('<' :: ('/' :: ("destination".data ++ ('>' :: rest)))))
      = some ({st with Destination := m.Destination}, rest) := by
    simp only [edgeFirewallRuleH]
    rw [if_neg (by decide), if_neg (by decide), if_neg (by decide), if_neg (by decide), if_neg (by decide), if_pos trivial]
    simp [hrun]
  have hstep := loopSem_elem edgeFirewallRuleH closer "destination" (nestedS (edgeFirewallEndpointFields m.Destination)) rest st
      {st with Destination := m.Destination} r (by decide) (by decide) hh hcont
  rw [show renderFields [("destination", nestedS (edgeFirewallEndpointFields m.Destination))] ++ rest
      = renderElem "destination" (nestedS (edgeFirewallEndpointFields m.Destination)) ++ rest from by
    simp [renderFields]]
  exact hstep

theorem ruleSem_application (closer : List Char) (m st : EdgeFirewallRule) (rest : List Char)
    (r : EdgeFirewallRule × List Char)
    (hcont : LoopSem edgeFirewallRuleH closer {st with Application := m.Application} rest r) :
    LoopSem edgeFirewallRuleH closer st
      (renderFields [("application", nestedS (edgeFirewallApplicationFields m.Application))] ++ rest) r := by
  have hrun : runNested edgeFirewallApplicationH "application".data EdgeFirewallApplication.zero
      ((nestedS (edgeFirewallApplicationFields m.Application)).data ++ ('<' :: ('/' :: ("application".data ++ ('>' :: rest)))))
      = some (m.Application, rest) := by
    unfold runNested
    exact applicationAssembly "application".data (by decide) m.Application rest _ (Nat.lt_succ_self _)
  simp at hrun
  have hh : edgeFirewallRuleH st "application".data
      ((nestedS (edgeFirewallApplicationFields m.Application)).data ++ ('<' :: ('/' :: ("application".data ++ ('>' :: rest)))))
      = some ({st with Application := m.Application}, rest) := by
    simp only [edgeFirewallRuleH]
    rw [if_neg (by decide), if_neg (by decide), if_neg (by decide), if_neg (by decide), if_neg (by decide), if_neg (by decide), if_pos trivial]
    simp [hrun]
  have hstep := loopSem_elem edgeFirewallRuleH closer "application" (nestedS (edgeFirewallApplicationFields m.Application)) rest st
      {st with Application := m.Application} r (by decide) (by decide) hh hcont
  rw [show renderFields [("application", nestedS (edgeFirewallApplicationFields m.Application))] ++ rest
      = renderElem "application" (nestedS (edgeFirewallApplicationFields m.Application)) ++ rest from by
    simp [renderFields]]
  exact hstep

theorem ruleSem_matchTranslated (closer : List Char) (m st : EdgeFirewallRule) (rest : List Char)
    (r : EdgeFirewallRule × List Char)
    (hst : st.MatchTranslated = none)
    (hcont : LoopSem edgeFirewallRuleH closer {st with MatchTranslated := m.MatchTranslated} rest r) :
    LoopSem edgeFirewallRuleH closer st (renderFields (ptrBoolField "matchTranslated" m.MatchTranslated) ++ rest) r := by
  cases hm : m.MatchTranslated with
  | none =>
    rw [hm] at hcont
    have hst' : ({st with MatchTranslated := (none : Option Bool)}) = st := by
      cases st; simp_all
    rw [hst'] at hcont
    simpa [ptrBoolField, hm, renderFields] using hcont
  | some b =>
    rw [hm] at hcont
    have hrs := readSimple_boolChars "matchTranslated".data b rest
    simp at hrs
    have hh : edgeFirewallRuleH st "matchTranslated".data
        ((boolS b).data ++ ('<' :: ('/' :: ("matchTranslated".data ++ ('>' :: rest)))))
        = some ({st with MatchTranslated := some b}, rest) := by
      simp only [edgeFirewallRuleH]
      rw [if_neg (by decide), if_neg (by decide), if_neg (by decide), if_neg (by decide), if_neg (by decide), if_neg (by decide), if_neg (by decide), if_pos trivial]
      simp [readBoolF, boolS_data, hrs, parseGoBool_boolChars]
    have hstep := loopSem_elem edgeFirewallRuleH closer "matchTranslated" (boolS b) rest st
        {st with MatchTranslated := some b} r (by decide) (by decide) hh hcont
    rw [show renderFields (ptrBoolField "matchTranslated" (some b)) ++ rest
        = renderElem "matchTranslated" (boolS b) ++ rest from by
      simp [ptrBoolField, renderFields]]
    exact hstep

theorem ruleSem_direction (closer : List Char) (m st : EdgeFirewallRule) (rest : List Char)
    (r : EdgeFirewallRule × List Char)
    (hst : st.Direction = "")
    (hcont : LoopSem edgeFirewallRuleH closer {st with Direction := m.Direction} rest r) :
    LoopSem edgeFirewallRuleH closer st (renderFields (optStrField "direction" m.Direction) ++ rest) r := by
  by_cases h : m.Direction = ""
  · have hst' : ({st with Direction := m.Direction}) = st := by
      cases st; simp_all
    rw [hst'] at hcont
    simpa [optStrField, h, renderFields] using hcont
  ·
    have hrs := readSimple_escape "direction".data m.Direction.data rest
    simp at hrs
    have hh : edgeFirewallRuleH st "direction".data
        ((escS m.Direction).data ++ ('<' :: ('/' :: ("direction".data ++ ('>' :: rest)))))
        = some ({st with Direction := m.Direction}, rest) := by
      simp only [edgeFirewallRuleH]
      rw [if_neg (by decide), if_neg (by decide), if_neg (by decide), if_neg (by decide), if_neg (by decide), if_neg (by decide), if_neg (by decide), if_neg (by decide), if_pos trivial]
      simp [readStrF, escS_data, hrs, strMk_data]
    have hstep := loopSem_elem edgeFirewallRuleH closer "direction" (escS m.Direction) rest st
        {st with Direction := m.Direction} r (by decide) (by decide) hh hcont
    rw [show renderFields (optStrField "direction" m.Direction) ++ rest
        = renderElem "direction" (escS m.Direction) ++ rest from by
      simp [optStrField, h, renderFields]]
    exact hstep

theorem ruleSem_action (closer : List Char) (m st : EdgeFirewallRule) (rest : List Char)
    (r : EdgeFirewallRule × List Char)
    (hst : st.Action = "")
    (hcont : LoopSem edgeFirewallRuleH closer {st with Action := m.Action} rest r) :
    LoopSem edgeFirewallRuleH closer st (renderFields (optStrField "action" m.Action) ++ rest) r := by
  by_cases h : m.Action = ""
  · have hst' : ({st with Action := m.Action}) = st := by
      cases st; simp_all
    rw [hst'] at hcont
    simpa [optStrField, h, renderFields] using hcont
  ·
    have hrs := readSimple_escape "action".data m.Action.data rest
    simp at hrs
    have hh : edgeFirewallRuleH st "action".data
        ((escS m.Action).data ++ ('<' :: ('/' :: ("action".data ++ ('>' :: rest)))))
        = some ({st with Action := m.Action}, rest) := by
      simp only [edgeFirewallRuleH]
      rw [if_neg (by decide), if_neg (by decide), if_neg (by decide), if_neg (by decide), if_neg (by decide), if_neg (by decide), if_neg (by decide), if_neg (by decide), if_neg (by decide), if_pos trivial]
      simp [readStrF, escS_data, hrs, strMk_data]
    have hstep := loopSem_elem edgeFirewallRuleH closer "action" (escS m.Action) rest st
        {st with Action := m.Action} r (by decide) (by decide) hh hcont
    rw [show renderFields (optStrField "action" m.Action) ++ rest
        = renderElem "action" (escS m.Action) ++ rest from by
      simp [optStrField, h, renderFields]]
    exact hstep

theorem ruleSem_enabled (closer : List Char) (m st : EdgeFirewallRule) (rest : List Char)
    (r : EdgeFirewallRule × List Char)
    (hcont : LoopSem edgeFirewallRuleH closer {st with Enabled := m.Enabled} rest r) :
    LoopSem edgeFirewallRuleH closer st (renderFields (boolField "enabled" m.Enabled) ++ rest) r := by
  have hrs := readSimple_boolChars "enabled".data m.Enabled rest
  simp at hrs
  have hh : edgeFirewallRuleH st "enabled".data
      ((boolS m.Enabled).data ++ ('<' :: ('/' :: ("enabled".data ++ ('>' :: rest)))))
      = some ({st with Enabled := m.Enabled}, rest) := by
    simp only [edgeFirewallRuleH]
    rw [if_neg (by decide), if_neg (by decide), if_neg (by decide), if_neg (by decide), if_neg (by decide), if_neg (by decide), if_neg (by decide), if_neg (by decide), if_neg (by decide), if_neg (by decide), if_pos trivial]
    simp [readBoolF, boolS_data, hrs, parseGoBool_boolChars]
  have hstep := loopSem_elem edgeFirewallRuleH closer "enabled" (boolS m.Enabled) rest st
      {st with Enabled := m.Enabled} r (by decide) (by decide) hh hcont
  rw [show renderFields (boolField "enabled" m.Enabled) ++ rest
      = renderElem "enabled" (boolS m.Enabled) ++ rest from by
    simp [boolField, renderFields]]
  exact hstep

theorem ruleSem_loggingEnabled (closer : List Char) (m st : EdgeFirewallRule) (rest : List Char)
    (r : EdgeFirewallRule × List Char)
    (hcont : LoopSem edgeFirewallRuleH closer {st with LoggingEnabled := m.LoggingEnabled} rest r) :
    LoopSem edgeFirewallRuleH closer st (renderFields (boolField "loggingEnabled" m.LoggingEnabled) ++ rest) r := by
  have hrs := readSimple_boolChars "loggingEnabled".data m.LoggingEnabled rest
  simp at hrs
  have hh : edgeFirewallRuleH st "loggingEnabled".data
      ((boolS m.LoggingEnabled).data ++ ('<' :: ('/' :: ("loggingEnabled".data ++ ('>' :: rest)))))
      = some ({st with LoggingEnabled := m.LoggingEnabled}, rest) := by
    simp only [edgeFirewallRuleH]
    rw [if_neg (by decide), if_neg (by decide), if_neg (by decide), if_neg (by decide), if_neg (by decide), if_neg (by decide), if_neg (by decide), if_neg (by decide), if_neg (by decide), if_neg (by decide), if_neg (by decide), if_pos trivial]
    simp [readBoolF, boolS_data, hrs, parseGoBool_boolChars]
  have hstep := loopSem_elem edgeFirewallRuleH closer "loggingEnabled" (boolS m.LoggingEnabled) rest st
      {st with LoggingEnabled := m.LoggingEnabled} r (by decide) (by decide) hh hcont
  rw [show renderFields (boolField "loggingEnabled" m.LoggingEnabled) ++ rest
      = renderElem "loggingEnabled" (boolS m.LoggingEnabled) ++ rest from by
    simp [boolField, renderFields]]
  exact hstep

theorem ruleAssembly (closer : List Char) (hc : ∀ c ∈ closer, (c == '>') = false)
    (m : EdgeFirewallRule) (rest : List Char) :
    LoopSem edgeFirewallRuleH closer EdgeFirewallRule.zero
      (renderFields (edgeFirewallRuleFields m) ++ ('<' :: ('/' :: (closer ++ ('>' :: rest)))))
      (m, rest) := by
  simp only [edgeFirewallRuleFields, renderFields_append, List.append_assoc]
  refine ruleSem_id closer m _ _ _ rfl ?_
  refine ruleSem_name closer m _ _ _ rfl ?_
  refine ruleSem_ruleType closer m _ _ _ rfl ?_
  refine ruleSem_ruleTag closer m _ _ _ rfl ?_
  refine ruleSem_source closer m _ _ _ ?_
  refine ruleSem_destination closer m _ _ _ ?_
  refine ruleSem_application closer m _ _ _ ?_
  refine ruleSem_matchTranslated closer m _ _ _ rfl ?_
  refine ruleSem_direction closer m _ _ _ rfl ?_
  refine ruleSem_action closer m _ _ _ rfl ?_
  refine ruleSem_enabled closer m _ _ _ ?_
  refine ruleSem_loggingEnabled closer m _ _ _ ?_
  exact loopSem_close edgeFirewallRuleH closer hc m rest


/-! ## Decode-of-encode round trips -/

theorem decodeXml_encode {σ : Type} (root : String)
    (h : σ → List Char → List Char → Option (σ × List Char)) (z v : σ)
    (fields : List (String × String))
    (hsem : LoopSem h root.data z
        (renderFields fields ++ ('<' :: ('/' :: (root.data ++ ('>' :: []))))) (v, [])) :
    decodeXml root h z ⟨renderElem root (nestedS fields)⟩ = Except.ok v := by
  unfold decodeXml
  have hsp : isXmlSpace '<' = false := by decide
  have h1 : (⟨renderElem root (nestedS fields)⟩ : String).data.dropWhile isXmlSpace
      = renderElem root (nestedS fields) := by
    simp [renderElem, List.dropWhile, hsp, strData_mk]
  have h2 : expectL ('<' :: (root.data ++ ['>'])) (renderElem root (nestedS fields))
      = some (renderFields fields ++ ('<' :: ('/' :: (root.data ++ ('>' :: []))))) := by
    rw [show renderElem root (nestedS fields)
        = ('<' :: (root.data ++ ['>'])) ++
          (renderFields fields ++ ('<' :: ('/' :: (root.data ++ ('>' :: []))))) from by
      simp [renderElem, nestedS_data]]
    exact expectL_append _ _
  have hunr := hsem ((renderFields fields ++
      ('<' :: ('/' :: (root.data ++ ('>' :: []))))).length + 1) (Nat.lt_succ_self _)
  simp at hunr
  simp [h1, h2, hunr]

/-- Round trip for `LbMonitor`: decoding the encoding of any monitor
value reproduces it field for field. -/
theorem decode_encode_lbMonitor (m : LbMonitor) :
    decodeLbMonitor (encodeLbMonitor m) = Except.ok m :=
  decodeXml_encode "monitor" lbMonitorH LbMonitor.zero m (lbMonitorFields m)
    (lbMonitorAssembly "monitor".data (by decide) m [])

/-- Round trip for `EdgeFirewallRule`, including the nested endpoints,
the application with its ordered service list, and the three-state
`matchTranslated` marker. -/
theorem decode_encode_edgeFirewallRule (r : EdgeFirewallRule) :
    decodeEdgeFirewallRule (encodeEdgeFirewallRule r) = Except.ok r :=
  decodeXml_encode "firewallRule" edgeFirewallRuleH EdgeFirewallRule.zero r
    (edgeFirewallRuleFields r)
    (ruleAssembly "firewallRule".data (by decide) r [])

/-- A string is a well-formed (attribute-free) XML fragment: it is the
rendering of some well-formed fragment tree. -/
def IsWfXmlFragment (s : String) : Prop :=
  ∃ fr : Frag, fr.wf = true ∧ s.data = fr.render

/-- Round trip for `FirewallConfigWithXml`: when the two opaque
`innerxml` texts are well-formed fragments, decoding the encoding
reproduces the whole value, opaque texts byte-for-byte included. -/
theorem decode_encode_firewallConfig (m : FirewallConfigWithXml)
    (h1 : IsWfXmlFragment m.FirewallRules.Text)
    (h2 : IsWfXmlFragment m.GlobalConfig.Text) :
    decodeFirewallConfigWithXml (encodeFirewallConfigWithXml m) = Except.ok m := by
  obtain ⟨fr1, hw1, hr1⟩ := h1
  obtain ⟨fr2, hw2, hr2⟩ := h2
  exact decodeXml_encode "firewall" firewallConfigH FirewallConfigWithXml.zero m
    (firewallConfigFields m)
    (firewallAssembly "firewall".data (by decide) m fr1 fr2 hw1 hw2 hr1 hr2 [])


/-! ## Opaque-fragment handling never fails: per-field handler steps for
`LbGeneralParamsWithXml` and a concrete decode chain with a symbolic
`pool` fragment -/

theorem lbGenH_enabled (st : LbGeneralParamsWithXml) :
    ∀ REST : List Char, lbGeneralParamsH st "enabled".data
      ("true".data ++ ('<' :: ('/' :: ("enabled".data ++ ('>' :: REST)))))
      = some ({st with Enabled := true}, REST) := by
  intro REST
  have hrs := readSimple_raw "enabled".data "true".data "true".data REST
    (by decide) (by decide)
  simp at hrs
  simp only [lbGeneralParamsH]
  rw [if_pos trivial]
  simp [readBoolF, hrs, show parseGoBool (xmlTrim "true".data) = some true from by decide]

theorem lbGenH_acceleration (st : LbGeneralParamsWithXml) :
    ∀ REST : List Char, lbGeneralParamsH st "accelerationEnabled".data
      ("false".data ++ ('<' :: ('/' :: ("accelerationEnabled".data ++ ('>' :: REST)))))
      = some ({st with AccelerationEnabled := false}, REST) := by
  intro REST
  have hrs := readSimple_raw "accelerationEnabled".data "false".data "false".data REST
    (by decide) (by decide)
  simp at hrs
  simp only [lbGeneralParamsH]
  rw [if_neg (by decide), if_pos trivial]
  simp [readBoolF, hrs, show parseGoBool (xmlTrim "false".data) = some false from by decide]

theorem lbGenH_esi (st : LbGeneralParamsWithXml) :
    ∀ REST : List Char, lbGeneralParamsH st "enableServiceInsertion".data
      ("false".data ++ ('<' :: ('/' :: ("enableServiceInsertion".data ++ ('>' :: REST)))))
      = some ({st with EnableServiceInsertion := false}, REST) := by
  intro REST
  have hrs := readSimple_raw "enableServiceInsertion".data "false".data "false".data REST
    (by decide) (by decide)
  simp at hrs
  simp only [lbGeneralParamsH]
  rw [if_neg (by decide), if_neg (by decide), if_neg (by decide), if_pos trivial]
  simp [readBoolF, hrs, show parseGoBool (xmlTrim "false".data) = some false from by decide]

theorem lbGenH_pool (st : LbGeneralParamsWithXml) (frag : String) (fr : Frag)
    (hwf : fr.wf = true) (hfr : frag.data = fr.render) :
    ∀ REST : List Char, lbGeneralParamsH st "pool".data
      (frag.data ++ ('<' :: ('/' :: ("pool".data ++ ('>' :: REST)))))
      = some ({st with Pools := st.Pools ++ [⟨frag⟩]}, REST) := by
  intro REST
  have hcap := capture_frag "pool".data (by decide) (by decide) fr hwf REST
  simp at hcap
  have hs : (⟨fr.render⟩ : String) = frag := by
    rw [← hfr]
  rw [hfr]
  simp only [lbGeneralParamsH]
  rw [if_neg (by decide), if_neg (by decide), if_neg (by decide), if_neg (by decide),
    if_neg (by decide), if_neg (by decide), if_pos trivial]
  simp [readInnerF, hcap, hs]

theorem lbGeneralPoolSem (frag : String) (fr : Frag) (hwf : fr.wf = true)
    (hfr : frag.data = fr.render) :
    LoopSem lbGeneralParamsH "loadBalancer".data LbGeneralParamsWithXml.zero
      (renderFields [("enabled", "true"), ("accelerationEnabled", "false"),
          ("enableServiceInsertion", "false"), ("pool", frag)] ++
        ('<' :: ('/' :: ("loadBalancer".data ++ ('>' :: [])))))
      (⟨true, false, none, false, "", [], [⟨frag⟩], [], [], []⟩, []) := by
  rw [show renderFields [("enabled", "true"), ("accelerationEnabled", "false"),
        ("enableServiceInsertion", "false"), ("pool", frag)] ++
        ('<' :: ('/' :: ("loadBalancer".data ++ ('>' :: []))))
      = renderElem "enabled" "true" ++ (renderElem "accelerationEnabled" "false" ++
        (renderElem "enableServiceInsertion" "false" ++ (renderElem "pool" frag ++
          ('<' :: ('/' :: ("loadBalancer".data ++ ('>' :: []))))))) from by
    simp [renderFields]]
  refine loopSem_elem lbGeneralParamsH "loadBalancer".data "enabled" "true" _
      LbGeneralParamsWithXml.zero ⟨true, false, none, false, "", [], [], [], [], []⟩ _
      (by decide) (by decide) (lbGenH_enabled LbGeneralParamsWithXml.zero _) ?_
  refine loopSem_elem lbGeneralParamsH "loadBalancer".data "accelerationEnabled" "false" _
      _ ⟨true, false, none, false, "", [], [], [], [], []⟩ _
      (by decide) (by decide) (lbGenH_acceleration _ _) ?_
  refine loopSem_elem lbGeneralParamsH "loadBalancer".data "enableServiceInsertion" "false" _
      _ ⟨true, false, none, false, "", [], [], [], [], []⟩ _
      (by decide) (by decide) (lbGenH_esi _ _) ?_
  refine loopSem_elem lbGeneralParamsH "loadBalancer".data "pool" frag _
      _ ⟨true, false, none, false, "", [], [⟨frag⟩], [], [], []⟩ _
      (by decide) (by decide) (lbGenH_pool _ frag fr hwf hfr _) ?_
  exact loopSem_close lbGeneralParamsH "loadBalancer".data (by decide)
    ⟨true, false, none, false, "", [], [⟨frag⟩], [], [], []⟩ []

theorem c7_lb_literal (frag : String) :
    ("<loadBalancer><enabled>true</enabled><accelerationEnabled>false</accelerationEnabled><enableServiceInsertion>false</enableServiceInsertion><pool>" ++ frag ++ "</pool></loadBalancer>")
      = (⟨renderElem "loadBalancer" (nestedS [("enabled", "true"),
          ("accelerationEnabled", "false"), ("enableServiceInsertion", "false"),
          ("pool", frag)])⟩ : String) := by
  apply String.ext
  simp [renderElem, nestedS, renderFields, strApp_data, strData_mk]

theorem c7_fw_literal (frag : String) :
    ("<firewall><enabled>true</enabled><defaultPolicy><loggingEnabled>false</loggingEnabled><action>deny</action></defaultPolicy><firewallRules>" ++ frag ++ "</firewallRules><globalConfig></globalConfig></firewall>")
      = encodeFirewallConfigWithXml ⟨true, ⟨false, "deny"⟩, "", ⟨frag⟩, ⟨""⟩⟩ := by
  apply String.ext
  simp [encodeFirewallConfigWithXml, firewallConfigFields, firewallDefaultPolicyFields,
    boolField, optStrField, innerField, strField, boolS, boolChars, escS, escape, escChar,
    renderElem, nestedS, renderFields, strApp_data, strData_mk]

theorem c7_fw_decode (frag : String) (h : IsWfXmlFragment frag) :
    decodeFirewallConfigWithXml
      ("<firewall><enabled>true</enabled><defaultPolicy><loggingEnabled>false</loggingEnabled><action>deny</action></defaultPolicy><firewallRules>" ++ frag ++ "</firewallRules><globalConfig></globalConfig></firewall>")
      = Except.ok ⟨true, ⟨false, "deny"⟩, "", ⟨frag⟩, ⟨""⟩⟩ := by
  rw [c7_fw_literal frag]
  exact decode_encode_firewallConfig ⟨true, ⟨false, "deny"⟩, "", ⟨frag⟩, ⟨""⟩⟩ h
    ⟨Frag.nil, rfl, rfl⟩

/-! ## Field-name characterisations of the omission rules -/

theorem mem_fieldNames_strField (x n v : String) :
    x ∈ fieldNames (strField n v) ↔ x = n := by
  simp [strField, fieldNames]

theorem mem_fieldNames_boolField (x n : String) (b : Bool) :
    x ∈ fieldNames (boolField n b) ↔ x = n := by
  simp [boolField, fieldNames]

theorem mem_fieldNames_intField (x n : String) (i : Int) :
    x ∈ fieldNames (intField n i) ↔ x = n := by
  simp [intField, fieldNames]

theorem mem_fieldNames_innerField (x n v : String) :
    x ∈ fieldNames (innerField n v) ↔ x = n := by
  simp [innerField, fieldNames]

theorem mem_fieldNames_optStrField (x n v : String) :
    x ∈ fieldNames (optStrField n v) ↔ (x = n ∧ ¬ v = "") := by
  unfold optStrField fieldNames
  split_ifs with h <;> simp_all

theorem mem_fieldNames_optIntField (x n : String) (i : Int) :
    x ∈ fieldNames (optIntField n i) ↔ (x = n ∧ ¬ i = 0) := by
  unfold optIntField fieldNames
  split_ifs with h <;> simp_all

theorem mem_fieldNames_ptrBoolField (x n : String) (o : Option Bool) :
    x ∈ fieldNames (ptrBoolField n o) ↔ (x = n ∧ ¬ o = none) := by
  cases o <;> simp [ptrBoolField, fieldNames]

theorem mem_fieldNames_ptrIntField (x n : String) (o : Option Int) :
    x ∈ fieldNames (ptrIntField n o) ↔ (x = n ∧ ¬ o = none) := by
  cases o <;> simp [ptrIntField, fieldNames]

theorem mem_replicate_name (x n : String) (k : Nat) :
    x ∈ List.replicate k n ↔ (x = n ∧ ¬ k = 0) := by
  rw [List.mem_replicate]
  constructor
  · rintro ⟨h1, h2⟩
    exact ⟨h2, h1⟩
  · rintro ⟨h1, h2⟩
    exact ⟨h2, h1⟩

theorem mem_fieldNames_listStrField (x n : String) (l : List String) :
    x ∈ fieldNames (listStrField n l) ↔ (x = n ∧ ¬ l = []) := by
  rw [show fieldNames (listStrField n l) = List.replicate l.length n from by
    simp [listStrField, fieldNames, List.map_map, Function.comp_def]]
  rw [mem_replicate_name]
  simp [List.length_eq_zero]

theorem mem_fieldNames_listInnerField (x n : String) (l : List String) :
    x ∈ fieldNames (listInnerField n l) ↔ (x = n ∧ ¬ l = []) := by
  rw [show fieldNames (listInnerField n l) = List.replicate l.length n from by
    simp [listInnerField, fieldNames, List.map_map, Function.comp_def]]
  rw [mem_replicate_name]
  simp [List.length_eq_zero]

theorem mem_fieldNames_listNestedField (x n : String) (fs : List (List (String × String))) :
    x ∈ fieldNames (listNestedField n fs) ↔ (x = n ∧ ¬ fs = []) := by
  rw [show fieldNames (listNestedField n fs) = List.replicate fs.length n from by
    simp [listNestedField, fieldNames, List.map_map, Function.comp_def]]
  rw [mem_replicate_name]
  simp [List.length_eq_zero]

theorem fieldNames_append (a b : List (String × String)) :
    fieldNames (a ++ b) = fieldNames a ++ fieldNames b := by
  simp [fieldNames]

theorem mem_fieldNames_single (x n c : String) : x ∈ fieldNames [(n, c)] ↔ x = n := by
  simp [fieldNames]

theorem mem_fieldNames_cons (x : String) (p : String × String)
    (l : List (String × String)) :
    x ∈ fieldNames (p :: l) ↔ (x = p.1 ∨ x ∈ fieldNames l) := by
  simp [fieldNames]

/-- Does `pat` occur as a contiguous substring of the input? -/
def hasInfix (pat : List Char) : List Char → Bool
  | [] => pat.isPrefixOf []
  | c :: cs => pat.isPrefixOf (c :: cs) || hasInfix pat cs

/-! ## Concrete example inputs used by the scenario claims -/

/-- A well-formed, pretty-printed firewall configuration document whose
modeled fields decode without loss; the insignificant whitespace between
elements is not reproduced by the encoder. -/
def exC1input : String :=
  "<firewall>\n  <enabled>true</enabled>\n  <defaultPolicy><loggingEnabled>false</loggingEnabled><action>accept</action></defaultPolicy>\n  <firewallRules><a>x</a></firewallRules>\n  <globalConfig></globalConfig>\n</firewall>"

def exC1doc : FirewallConfigWithXml :=
  ⟨true, ⟨false, "accept"⟩, "", ⟨"<a>x</a>"⟩, ⟨""⟩⟩

/-- A firewall-rule response document with `matchTranslated` explicitly
`false`. -/
def exC4input : String :=
  "<firewallRule><name>r1</name><source><exclude>false</exclude></source><destination><exclude>false</exclude></destination><application></application><matchTranslated>false</matchTranslated><action>accept</action><enabled>true</enabled><loggingEnabled>false</loggingEnabled></firewallRule>"

def exC4doc : EdgeFirewallRule :=
  ⟨"", "r1", "", "", ⟨false, [], [], []⟩, ⟨false, [], [], []⟩, ⟨"", []⟩,
    some false, "", "accept", true, false⟩

/-- The IP set of the specification's scenario: name `test-ipset`,
address list `192.168.1.0/24`, inheritance marker unset, revision
unset. -/
def exC5ipset : EdgeIpSet := ⟨"", "test-ipset", "", "192.168.1.0/24", none, none⟩

/-- A well-formed firewall document lacking the `firewallRules` and
`globalConfig` elements. -/
def exC10input : String :=
  "<firewall><enabled>false</enabled><defaultPolicy><loggingEnabled>false</loggingEnabled><action>deny</action></defaultPolicy></firewall>"

def exC10doc : FirewallConfigWithXml := ⟨false, ⟨false, "deny"⟩, "", ⟨""⟩, ⟨""⟩⟩

/-! ## The sample test-configuration document and JSON well-formedness

The machine below implements the RFC 8259 JSON grammar (objects,
arrays, strings with escapes, numbers, the three literals,
insignificant whitespace): `jGo1` is one transition of a
stack-machine recogniser over character lists, `jGoIter` iterates it
under fuel, and `jsonWf` accepts exactly the well-formed JSON texts
(one value followed by whitespace only).  `sampleJson` is the
byte-exact content of `sample_govcd_test_config.json`, split as
`sampleJsonPre ++ "," ++ sampleJsonSuf` around the comma that follows
the `uploadedMediaName` value in the `media` section;
`sampleJsonFixed` is the same text with only that comma removed. -/

def jWs (c : Char) : Bool :=
  c == ' ' || c == '\t' || c == '\n' || c == '\r'

def skipJWs (cs : List Char) : List Char := cs.dropWhile jWs

def isHexCh (c : Char) : Bool :=
  isDigitCh c || (97 ≤ c.toNat && c.toNat ≤ 102) || (65 ≤ c.toNat && c.toNat ≤ 70)

/-- Scan a string body after the opening quote; `some rest` holds what
follows the closing quote. -/
def jStrScan : Nat → List Char → Option (List Char)
  | 0, _ => none
  | _ + 1, [] => none
  | fuel + 1, c :: r =>
    if c == '"' then some r
    else if c == '\\' then
      match r with
      | [] => none
      | e :: r2 =>
        if e == '"' || e == '\\' || e == '/' || e == 'b' || e == 'f' ||
            e == 'n' || e == 'r' || e == 't' then
          jStrScan fuel r2
        else if e == 'u' then
          match r2 with
          | h1 :: h2 :: h3 :: h4 :: r3 =>
            if isHexCh h1 && isHexCh h2 && isHexCh h3 && isHexCh h4 then
              jStrScan fuel r3
            else none
          | _ => none
        else none
    else if c.toNat < 32 then none
    else jStrScan fuel r

def jExpPart (cs : List Char) : Option (List Char) :=
  match cs with
  | c :: r =>
    if c == 'e' || c == 'E' then
      let r1 := match r with
        | s :: r2 => if s == '+' || s == '-' then r2 else s :: r2
        | [] => []
      match r1 with
      | d :: r2 => if isDigitCh d then some (r2.dropWhile isDigitCh) else none
      | [] => none
    else some (c :: r)
  | [] => some []

def jFracPart (cs : List Char) : Option (List Char) :=
  match cs with
  | '.' :: r =>
    match r with
    | d :: r2 => if isDigitCh d then jExpPart (r2.dropWhile isDigitCh) else none
    | [] => none
  | _ => jExpPart cs

def jNumber (cs : List Char) : Option (List Char) :=
  match (match cs with | '-' :: r => r | _ => cs) with
  | c :: r =>
    if c == '0' then jFracPart r
    else if isDigitCh c then jFracPart (r.dropWhile isDigitCh)
    else none
  | [] => none

/-- A scalar JSON value headed by `c`: string, `true`, `false`, `null`
or number. -/
def jScalar (lim : Nat) (c : Char) (r : List Char) : Option (List Char) :=
  if c == '"' then jStrScan lim r
  else if c == 't' then expectL "rue".data r
  else if c == 'f' then expectL "alse".data r
  else if c == 'n' then expectL "ull".data r
  else jNumber (c :: r)

/-- Pending context: a finished value continues an object or an array. -/
inductive JCtx where
  | obj : JCtx
  | arr : JCtx
deriving Repr, DecidableEq

inductive JPhase where
  | val : JPhase
  | member : JPhase
  | objMore : JPhase
  | arrMore : JPhase
deriving Repr, DecidableEq

structure JState where
  stk : List JCtx
  ph : JPhase
  cs : List Char
deriving Repr, DecidableEq

inductive JStep where
  | cont : JState → JStep
  | done : Option (List Char) → JStep
deriving Repr, DecidableEq

/-- One transition of the JSON recogniser.  `lim` bounds string-body
scanning and is fixed to more than the whole input's length. -/
def jGo1 (lim : Nat) : JState → JStep
  | ⟨stk, JPhase.val, cs⟩ =>
    match skipJWs cs with
    | [] => JStep.done none
    | c :: r =>
      if c == '\x7b' then
        match skipJWs r with
        | '\x7d' :: r2 =>
          match stk with
          | [] => JStep.done (some r2)
          | JCtx.obj :: s2 => JStep.cont ⟨s2, JPhase.objMore, r2⟩
          | JCtx.arr :: s2 => JStep.cont ⟨s2, JPhase.arrMore, r2⟩
        | r2 => JStep.cont ⟨stk, JPhase.member, r2⟩
      else if c == '[' then
        match skipJWs r with
        | ']' :: r2 =>
          match stk with
          | [] => JStep.done (some r2)
          | JCtx.obj :: s2 => JStep.cont ⟨s2, JPhase.objMore, r2⟩
          | JCtx.arr :: s2 => JStep.cont ⟨s2, JPhase.arrMore, r2⟩
        | r2 => JStep.cont ⟨JCtx.arr :: stk, JPhase.val, r2⟩
      else
        match jScalar lim c r with
        | some r2 =>
          match stk with
          | [] => JStep.done (some r2)
          | JCtx.obj :: s2 => JStep.cont ⟨s2, JPhase.objMore, r2⟩
          | JCtx.arr :: s2 => JStep.cont ⟨s2, JPhase.arrMore, r2⟩
        | none => JStep.done none
  | ⟨stk, JPhase.member, cs⟩ =>
    match skipJWs cs with
    | '"' :: r =>
      match jStrScan lim r with
      | some r2 =>
        match skipJWs r2 with
        | ':' :: r3 =>
          match skipJWs r3 with
          | [] => JStep.done none
          | c :: rv =>
            if c == '\x7b' then
              match skipJWs rv with
              | '\x7d' :: rv2 =>
                match skipJWs rv2 with
                | ',' :: rn => JStep.cont ⟨stk, JPhase.member, rn⟩
                | '\x7d' :: rn =>
                  match stk with
                  | [] => JStep.done (some rn)
                  | JCtx.obj :: s2 => JStep.cont ⟨s2, JPhase.objMore, rn⟩
                  | JCtx.arr :: s2 => JStep.cont ⟨s2, JPhase.arrMore, rn⟩
                | _ => JStep.done none
              | rv2 => JStep.cont ⟨JCtx.obj :: stk, JPhase.member, rv2⟩
            else if c == '[' then
              match skipJWs rv with
              | ']' :: rv2 =>
                match skipJWs rv2 with
                | ',' :: rn => JStep.cont ⟨stk, JPhase.member, rn⟩
                | '\x7d' :: rn =>
                  match stk with
                  | [] => JStep.done (some rn)
                  | JCtx.obj :: s2 => JStep.cont ⟨s2, JPhase.objMore, rn⟩
                  | JCtx.arr :: s2 => JStep.cont ⟨s2, JPhase.arrMore, rn⟩
                | _ => JStep.done none
              | rv2 => JStep.cont ⟨JCtx.arr :: JCtx.obj :: stk, JPhase.val, rv2⟩
            else
              match jScalar lim c rv with
              | some rv2 =>
                match skipJWs rv2 with
                | ',' :: rn => JStep.cont ⟨stk, JPhase.member, rn⟩
                | '\x7d' :: rn =>
                  match stk with
                  | [] => JStep.done (some rn)
                  | JCtx.obj :: s2 => JStep.cont ⟨s2, JPhase.objMore, rn⟩
                  | JCtx.arr :: s2 => JStep.cont ⟨s2, JPhase.arrMore, rn⟩
                | _ => JStep.done none
              | none => JStep.done none
        | _ => JStep.done none
      | none => JStep.done none
    | _ => JStep.done none
  | ⟨stk, JPhase.objMore, cs⟩ =>
    match skipJWs cs with
    | '\x7d' :: r =>
      match stk with
      | [] => JStep.done (some r)
      | JCtx.obj :: s2 => JStep.cont ⟨s2, JPhase.objMore, r⟩
      | JCtx.arr :: s2 => JStep.cont ⟨s2, JPhase.arrMore, r⟩
    | ',' :: r => JStep.cont ⟨stk, JPhase.member, r⟩
    | _ => JStep.done none
  | ⟨stk, JPhase.arrMore, cs⟩ =>
    match skipJWs cs with
    | ']' :: r =>
      match stk with
      | [] => JStep.done (some r)
      | JCtx.obj :: s2 => JStep.cont ⟨s2, JPhase.objMore, r⟩
      | JCtx.arr :: s2 => JStep.cont ⟨s2, JPhase.arrMore, r⟩
    | ',' :: r => JStep.cont ⟨JCtx.arr :: stk, JPhase.val, r⟩
    | _ => JStep.done none

def jGoIter (lim : Nat) : Nat → JState → Option (List Char)
  | 0, _ => none
  | fuel + 1, st =>
    match jGo1 lim st with
    | JStep.done r => r
    | JStep.cont st2 => jGoIter lim fuel st2

/-- Run exactly `n` transitions (or stop early on a result). -/
def jGoSteps (lim : Nat) : Nat → JState → JStep
  | 0, st => JStep.cont st
  | n + 1, st =>
    match jGo1 lim st with
    | JStep.done r => JStep.done r
    | JStep.cont st2 => jGoSteps lim n st2

def jsonWf (s : String) : Bool :=
  match jGoIter (s.data.length + 1) (s.data.length + 8) ⟨[], JPhase.val, s.data⟩ with
  | some rest => (skipJWs rest).isEmpty
  | none => false

theorem jGoIter_cont (lim a b : Nat) (st st2 : JState)
    (h : jGoSteps lim a st = JStep.cont st2) :
    jGoIter lim (a + b) st = jGoIter lim b st2 := by
  induction a generalizing st with
  | zero =>
    simp only [jGoSteps] at h
    injection h with h
    rw [Nat.zero_add, h]
  | succ n ih =>
    rw [show n + 1 + b = (n + b) + 1 from by omega]
    simp only [jGoSteps] at h
    simp only [jGoIter]
    cases hs : jGo1 lim st with
    | done r => rw [hs] at h; exact absurd h (by simp)
    | cont st3 => rw [hs] at h; simp at h; exact ih st3 h

theorem jGoIter_done (lim a b : Nat) (st : JState) (r : Option (List Char))
    (h : jGoSteps lim a st = JStep.done r) :
    jGoIter lim (a + b) st = r := by
  induction a generalizing st with
  | zero => simp only [jGoSteps] at h; exact absurd h (by simp)
  | succ n ih =>
    rw [show n + 1 + b = (n + b) + 1 from by omega]
    simp only [jGoSteps] at h
    simp only [jGoIter]
    cases hs : jGo1 lim st with
    | done r2 => rw [hs] at h; simp at h; exact h
    | cont st3 => rw [hs] at h; simp at h; exact ih st3 h

def sampleJsonPre : String := "\x7b\n    \"comment\": \"see sample_govcd_test_config.yaml for fields description\",\n\t\"provider\": \x7b\n\t\t\"user\": \"someuser\",\n\t\t\"password\": \"somepassword\",\n    \"//\": \"If token is provided, username and password are ignored\",\n    \"token\": \"an_auth_token\",\n\t\t\"url\": \"https://11.111.1.111/api\",\n\t\t\"sysOrg\": \"System\",\n\t\t\"//\": \"(Optional) In some cases the vCloud Director SDK must wait. It can be\",\n\t\t\"//\": \"customized using the below var. If it is not set SDK assumes a default value.\",\n\t\t\"maxRetryTimeout\": 60,\n    \"httpTimeout\" : 600\n\t\x7d,\n\t\"vcd\": \x7b\n\t\t\"org\": \"myorg\",\n\t\t\"vdc\": \"myvdc\",\n\t\t\"provider_vdc\": \x7b\n\t\t\t\"name\": \"myprovidervdc\",\n\t\t\t\"storage_profile\": \"mystorageprofile\",\n\t\t\t\"network_pool\": \"mynetworkpool\"\n\t\t\x7d,\n\t\t\"catalog\": \x7b\n\t\t\t\"name\": \"mycat\",\n\t\t\t\"//\": \"One item in the catalog. It will be used to compose test vApps. Some tests\",\n\t\t\t\"//\": \"rely on it being Photon OS. It is is not Photon OS - the tests will be skipped\",\n\t\t\t\"catalogItem\": \"myitem\",\n\t\t\t\"description\": \"my cat for loading\",\n\t\t\t\"catalogItemDescription\": \"my item to create vapps\"\n\t\t\x7d,\n\t\t\"network\": \x7b\n\t\t\t\"network1\": \"mynet\",\n\t\t\t\"network2\": \"mynet2\"\n\t\t\x7d,\n\t\t\"storageProfile\": \x7b\n\t\t\t\"storageProfile1\": \"Development\",\n\t\t\t\"storageProfile2\": \"*\"\n\t\t\x7d,\n\t\t\"edgeGateway\": \"myedgegw\",\n\t\t\"externalIp\": \"10.150.10.10\",\n\t\t\"externalNetmask\": \"255.255.224.0\",\n\t\t\"internalIp\": \"192.168.1.10\",\n\t\t\"internalNetmask\": \"255.255.255.0\",\n\t\t\"externalNetwork\": \"myexternalnet\",\n    \"//\": \"A port group name for creating an external network\",\n\t\t\"externalNetworkPortGroup\": \"ForTestingPG\",\n    \"externalNetworkPortGroupType\": \"NETWORK\",\n\t\t\"vimServer\": \"vc9\",\n        \"disk\": \x7b\n            \"size\": 1048576,\n            \"sizeForUpdate\": 1048576\n        \x7d\n\t\x7d,\n\t\"logging\": \x7b\n\t\t\"enabled\": true,\n\t\t\"logFileName\": \"go-vcloud-director.log\",\n\t\t\"logHttpRequests\": true,\n\t\t\"skipResponseTags\": \"SupportedVersions,VAppTemplate\",\n\t\t\"apiLogFunctions\": \"FindVAppByName\",\n\t\t\"logHttpResponses\": true\n\t\x7d,\n  \"ova\": \x7b\n    \"ovaPath\": \"../test-resources/test_vapp_template.ova\",\n    \"ovaChunkedPath\": \"../test-resources/template_with_custom_chunk_size.ova\"\n  \x7d,\n  \"media\": \x7b\n    \"mediaPath\": \"../test-resources/test.iso\",\n    \"mediaName\": \"uploadedMediaName\""

def sampleJsonSuf : String := "\n  \x7d\n\x7d"

/-- The byte-exact content of the sample test-configuration file. -/
def sampleJson : String := sampleJsonPre ++ "," ++ sampleJsonSuf

/-- The same text with only the trailing comma of the `media` section
removed. -/
def sampleJsonFixed : String := sampleJsonPre ++ sampleJsonSuf

def c9r1 : String := "\n\t\t\"vdc\": \"myvdc\",\n\t\t\"provider_vdc\": \x7b\n\t\t\t\"name\": \"myprovidervdc\",\n\t\t\t\"storage_profile\": \"mystorageprofile\",\n\t\t\t\"network_pool\": \"mynetworkpool\"\n\t\t\x7d,\n\t\t\"catalog\": \x7b\n\t\t\t\"name\": \"mycat\",\n\t\t\t\"//\": \"One item in the catalog. It will be used to compose test vApps. Some tests\",\n\t\t\t\"//\": \"rely on it being Photon OS. It is is not Photon OS - the tests will be skipped\",\n\t\t\t\"catalogItem\": \"myitem\",\n\t\t\t\"description\": \"my cat for loading\",\n\t\t\t\"catalogItemDescription\": \"my item to create vapps\"\n\t\t\x7d,\n\t\t\"network\": \x7b\n\t\t\t\"network1\": \"mynet\",\n\t\t\t\"network2\": \"mynet2\"\n\t\t\x7d,\n\t\t\"storageProfile\": \x7b\n\t\t\t\"storageProfile1\": \"Development\",\n\t\t\t\"storageProfile2\": \"*\"\n\t\t\x7d,\n\t\t\"edgeGateway\": \"myedgegw\",\n\t\t\"externalIp\": \"10.150.10.10\",\n\t\t\"externalNetmask\": \"255.255.224.0\",\n\t\t\"internalIp\": \"192.168.1.10\",\n\t\t\"internalNetmask\": \"255.255.255.0\",\n\t\t\"externalNetwork\": \"myexternalnet\",\n    \"//\": \"A port group name for creating an external network\",\n\t\t\"externalNetworkPortGroup\": \"ForTestingPG\",\n    \"externalNetworkPortGroupType\": \"NETWORK\",\n\t\t\"vimServer\": \"vc9\",\n        \"disk\": \x7b\n            \"size\": 1048576,\n            \"sizeForUpdate\": 1048576\n        \x7d\n\t\x7d,\n\t\"logging\": \x7b\n\t\t\"enabled\": true,\n\t\t\"logFileName\": \"go-vcloud-director.log\",\n\t\t\"logHttpRequests\": true,\n\t\t\"skipResponseTags\": \"SupportedVersions,VAppTemplate\",\n\t\t\"apiLogFunctions\": \"FindVAppByName\",\n\t\t\"logHttpResponses\": true\n\t\x7d,\n  \"ova\": \x7b\n    \"ovaPath\": \"../test-resources/test_vapp_template.ova\",\n    \"ovaChunkedPath\": \"../test-resources/template_with_custom_chunk_size.ova\"\n  \x7d,\n  \"media\": \x7b\n    \"mediaPath\": \"../test-resources/test.iso\",\n    \"mediaName\": \"uploadedMediaName\""

def c9r2 : String := "\n\t\t\t\"network2\": \"mynet2\"\n\t\t\x7d,\n\t\t\"storageProfile\": \x7b\n\t\t\t\"storageProfile1\": \"Development\",\n\t\t\t\"storageProfile2\": \"*\"\n\t\t\x7d,\n\t\t\"edgeGateway\": \"myedgegw\",\n\t\t\"externalIp\": \"10.150.10.10\",\n\t\t\"externalNetmask\": \"255.255.224.0\",\n\t\t\"internalIp\": \"192.168.1.10\",\n\t\t\"internalNetmask\": \"255.255.255.0\",\n\t\t\"externalNetwork\": \"myexternalnet\",\n    \"//\": \"A port group name for creating an external network\",\n\t\t\"externalNetworkPortGroup\": \"ForTestingPG\",\n    \"externalNetworkPortGroupType\": \"NETWORK\",\n\t\t\"vimServer\": \"vc9\",\n        \"disk\": \x7b\n            \"size\": 1048576,\n            \"sizeForUpdate\": 1048576\n        \x7d\n\t\x7d,\n\t\"logging\": \x7b\n\t\t\"enabled\": true,\n\t\t\"logFileName\": \"go-vcloud-director.log\",\n\t\t\"logHttpRequests\": true,\n\t\t\"skipResponseTags\": \"SupportedVersions,VAppTemplate\",\n\t\t\"apiLogFunctions\": \"FindVAppByName\",\n\t\t\"logHttpResponses\": true\n\t\x7d,\n  \"ova\": \x7b\n    \"ovaPath\": \"../test-resources/test_vapp_template.ova\",\n    \"ovaChunkedPath\": \"../test-resources/template_with_custom_chunk_size.ova\"\n  \x7d,\n  \"media\": \x7b\n    \"mediaPath\": \"../test-resources/test.iso\",\n    \"mediaName\": \"uploadedMediaName\""

def c9r3 : String := "\n        \"disk\": \x7b\n            \"size\": 1048576,\n            \"sizeForUpdate\": 1048576\n        \x7d\n\t\x7d,\n\t\"logging\": \x7b\n\t\t\"enabled\": true,\n\t\t\"logFileName\": \"go-vcloud-director.log\",\n\t\t\"logHttpRequests\": true,\n\t\t\"skipResponseTags\": \"SupportedVersions,VAppTemplate\",\n\t\t\"apiLogFunctions\": \"FindVAppByName\",\n\t\t\"logHttpResponses\": true\n\t\x7d,\n  \"ova\": \x7b\n    \"ovaPath\": \"../test-resources/test_vapp_template.ova\",\n    \"ovaChunkedPath\": \"../test-resources/template_with_custom_chunk_size.ova\"\n  \x7d,\n  \"media\": \x7b\n    \"mediaPath\": \"../test-resources/test.iso\",\n    \"mediaName\": \"uploadedMediaName\""

def c9r4 : String := ",\n  \"media\": \x7b\n    \"mediaPath\": \"../test-resources/test.iso\",\n    \"mediaName\": \"uploadedMediaName\""

theorem c9sample_0 : jGoSteps 2170 16 ⟨[], JPhase.val, sampleJson.data⟩
    = JStep.cont ⟨[JCtx.obj], JPhase.member, (c9r1 ++ ("," ++ sampleJsonSuf)).data⟩ := rfl

theorem c9sample_1 : jGoSteps 2170 16 ⟨[JCtx.obj], JPhase.member, (c9r1 ++ ("," ++ sampleJsonSuf)).data⟩
    = JStep.cont ⟨[JCtx.obj, JCtx.obj], JPhase.member, (c9r2 ++ ("," ++ sampleJsonSuf)).data⟩ := rfl

theorem c9sample_2 : jGoSteps 2170 16 ⟨[JCtx.obj, JCtx.obj], JPhase.member, (c9r2 ++ ("," ++ sampleJsonSuf)).data⟩
    = JStep.cont ⟨[JCtx.obj], JPhase.member, (c9r3 ++ ("," ++ sampleJsonSuf)).data⟩ := rfl

theorem c9sample_3 : jGoSteps 2170 16 ⟨[JCtx.obj], JPhase.member, (c9r3 ++ ("," ++ sampleJsonSuf)).data⟩
    = JStep.cont ⟨[], JPhase.objMore, (c9r4 ++ ("," ++ sampleJsonSuf)).data⟩ := rfl

theorem c9sample_4 : jGoSteps 2170 16 ⟨[], JPhase.objMore, (c9r4 ++ ("," ++ sampleJsonSuf)).data⟩
    = JStep.done none := rfl

theorem c9fixed_0 : jGoSteps 2169 16 ⟨[], JPhase.val, sampleJsonFixed.data⟩
    = JStep.cont ⟨[JCtx.obj], JPhase.member, (c9r1 ++ sampleJsonSuf).data⟩ := rfl

theorem c9fixed_1 : jGoSteps 2169 16 ⟨[JCtx.obj], JPhase.member, (c9r1 ++ sampleJsonSuf).data⟩
    = JStep.cont ⟨[JCtx.obj, JCtx.obj], JPhase.member, (c9r2 ++ sampleJsonSuf).data⟩ := rfl

theorem c9fixed_2 : jGoSteps 2169 16 ⟨[JCtx.obj, JCtx.obj], JPhase.member, (c9r2 ++ sampleJsonSuf).data⟩
    = JStep.cont ⟨[JCtx.obj], JPhase.member, (c9r3 ++ sampleJsonSuf).data⟩ := rfl

theorem c9fixed_3 : jGoSteps 2169 16 ⟨[JCtx.obj], JPhase.member, (c9r3 ++ sampleJsonSuf).data⟩
    = JStep.cont ⟨[], JPhase.objMore, (c9r4 ++ sampleJsonSuf).data⟩ := rfl

theorem c9fixed_4 : jGoSteps 2169 16 ⟨[], JPhase.objMore, (c9r4 ++ sampleJsonSuf).data⟩
    = JStep.done (some []) := rfl

/-- The file as shipped is not well-formed JSON. -/
theorem jsonWf_sample : jsonWf sampleJson = false := by
  unfold jsonWf
  rw [show sampleJson.data.length + 1 = 2170 from rfl,
    show sampleJson.data.length + 8 = 16 + (16 + (16 + (16 + (16 + 2097)))) from rfl,
    jGoIter_cont 2170 16 _ _ _ c9sample_0,
    jGoIter_cont 2170 16 _ _ _ c9sample_1,
    jGoIter_cont 2170 16 _ _ _ c9sample_2,
    jGoIter_cont 2170 16 _ _ _ c9sample_3,
    jGoIter_done 2170 16 2097 _ _ c9sample_4]

/-- Removing the one trailing comma yields well-formed JSON. -/
theorem jsonWf_sampleFixed : jsonWf sampleJsonFixed = true := by
  unfold jsonWf
  rw [show sampleJsonFixed.data.length + 1 = 2169 from rfl,
    show sampleJsonFixed.data.length + 8 = 16 + (16 + (16 + (16 + (16 + 2096)))) from rfl,
    jGoIter_cont 2169 16 _ _ _ c9fixed_0,
    jGoIter_cont 2169 16 _ _ _ c9fixed_1,
    jGoIter_cont 2169 16 _ _ _ c9fixed_2,
    jGoIter_cont 2169 16 _ _ _ c9fixed_3,
    jGoIter_done 2169 16 2096 _ _ c9fixed_4]
  rfl

/-! ## The claims -/

/-- Claim C1, counterexample: a well-formed input whose modeled fields
are left untouched after decoding, yet `encode (decode x)` differs from
`x` byte-for-byte — the decoder drops the insignificant whitespace
between elements and the encoder does not reproduce it. -/
theorem claim_C1_counterexample :
    decodeFirewallConfigWithXml exC1input = Except.ok exC1doc ∧
    encodeFirewallConfigWithXml exC1doc ≠ exC1input := by
  constructor
  · decide
  · decide

/-- Claim C1 as amended: the byte-identical round-trip law
`encode (decode x) = x` holds for inputs in the encoder's canonical
form — the image of `encode` over documents whose opaque fragment texts
are well-formed fragments: decoding such an `x = encode m` yields
exactly `m`, so re-encoding reproduces `x` byte-for-byte. -/
theorem claim_C1 (m : FirewallConfigWithXml)
    (h1 : IsWfXmlFragment m.FirewallRules.Text)
    (h2 : IsWfXmlFragment m.GlobalConfig.Text) :
    decodeFirewallConfigWithXml (encodeFirewallConfigWithXml m) = Except.ok m ∧
    ∀ d, decodeFirewallConfigWithXml (encodeFirewallConfigWithXml m) = Except.ok d →
      encodeFirewallConfigWithXml d = encodeFirewallConfigWithXml m := by
  have h := decode_encode_firewallConfig m h1 h2
  refine ⟨h, fun d hd => ?_⟩
  rw [h] at hd
  injection hd with h3
  rw [← h3]

theorem claim_C1_witness :
    decodeFirewallConfigWithXml (encodeFirewallConfigWithXml
        ⟨true, ⟨true, "accept"⟩, "3", ⟨"<a>x</a>"⟩, ⟨""⟩⟩)
      = Except.ok ⟨true, ⟨true, "accept"⟩, "3", ⟨"<a>x</a>"⟩, ⟨""⟩⟩ :=
  (claim_C1 ⟨true, ⟨true, "accept"⟩, "3", ⟨"<a>x</a>"⟩, ⟨""⟩⟩
    ⟨Frag.elem "a" (Frag.ch 'x' Frag.nil) Frag.nil, by decide, by decide⟩
    ⟨Frag.nil, by decide, by decide⟩).1

/-- Claim C2: for every document with only modeled fields set,
`decode (encode d)` reproduces `d` field for field — shown for
`LbMonitor` and for `EdgeFirewallRule` (whose `source`, `destination`,
`application` and ordered service list are nested), with
order-dependent equality on the schema-ordered sequences. -/
theorem claim_C2 :
    (∀ m : LbMonitor, decodeLbMonitor (encodeLbMonitor m) = Except.ok m) ∧
    (∀ r : EdgeFirewallRule,
      decodeEdgeFirewallRule (encodeEdgeFirewallRule r) = Except.ok r) :=
  ⟨decode_encode_lbMonitor, decode_encode_edgeFirewallRule⟩

/-- Claim C3: for the pointer-marked fields `EdgeIpSet.InheritanceAllowed`,
`EdgeIpSet.Revision` and `EdgeNatRule.Vnic`, encoding with the marker
unset omits the tag entirely, and encoding with the marker set to the
zero value (`false`/`0`) emits the tag with that zero value. -/
theorem claim_C3 :
    (∀ s : EdgeIpSet,
      (s.InheritanceAllowed = none →
        "inheritanceAllowed" ∉ fieldNames (edgeIpSetFields s)) ∧
      (s.InheritanceAllowed = some false →
        ("inheritanceAllowed", "false") ∈ edgeIpSetFields s) ∧
      (s.Revision = none → "revision" ∉ fieldNames (edgeIpSetFields s)) ∧
      (s.Revision = some 0 → ("revision", "0") ∈ edgeIpSetFields s)) ∧
    (∀ r : EdgeNatRule,
      (r.Vnic = none → "vnic" ∉ fieldNames (edgeNatRuleFields r)) ∧
      (r.Vnic = some 0 → ("vnic", "0") ∈ edgeNatRuleFields r)) := by
  constructor
  · rintro ⟨id, nm, desc, addrs, inh, rev⟩
    refine ⟨?_, ?_, ?_, ?_⟩
    · intro h
      subst h
      simp [edgeIpSetFields, fieldNames_append, mem_fieldNames_optStrField,
        mem_fieldNames_strField, mem_fieldNames_ptrBoolField, mem_fieldNames_ptrIntField]
    · intro h
      subst h
      simp [edgeIpSetFields, ptrBoolField, boolS, boolChars]
    · intro h
      subst h
      simp [edgeIpSetFields, fieldNames_append, mem_fieldNames_optStrField,
        mem_fieldNames_strField, mem_fieldNames_ptrBoolField, mem_fieldNames_ptrIntField]
    · intro h
      subst h
      have h0 : intS 0 = "0" := by decide
      simp [edgeIpSetFields, ptrIntField, h0]
  · rintro ⟨id, rt, rtag, act, vnic, oa, ta, le, en, de, pr, op, tp, it⟩
    constructor
    · intro h
      subst h
      simp [edgeNatRuleFields, fieldNames_append, mem_fieldNames_optStrField,
        mem_fieldNames_strField, mem_fieldNames_boolField, mem_fieldNames_ptrIntField]
    · intro h
      subst h
      have h0 : intS 0 = "0" := by decide
      simp [edgeNatRuleFields, ptrIntField, h0]

theorem claim_C3_witness :
    "inheritanceAllowed" ∉
      fieldNames (edgeIpSetFields ⟨"", "n", "", "10.1.1.1", none, none⟩) ∧
    ("inheritanceAllowed", "false") ∈
      edgeIpSetFields ⟨"", "n", "", "10.1.1.1", some false, none⟩ ∧
    ("revision", "0") ∈ edgeIpSetFields ⟨"", "n", "", "10.1.1.1", none, some 0⟩ ∧
    "vnic" ∉ fieldNames (edgeNatRuleFields
      ⟨"", "", "", "dnat", none, "1.1.1.1", "2.2.2.2", false, true, "", "", "", "", ""⟩) ∧
    ("vnic", "0") ∈ edgeNatRuleFields
      ⟨"", "", "", "dnat", some 0, "1.1.1.1", "2.2.2.2", false, true, "", "", "", "", ""⟩ :=
  ⟨(claim_C3.1 _).1 rfl, (claim_C3.1 _).2.1 rfl, (claim_C3.1 _).2.2.2 rfl,
    (claim_C3.2 _).1 rfl, (claim_C3.2 _).2 rfl⟩

/-- Claim C4: decoding a firewall rule whose `matchTranslated` element
is explicitly `false` and re-encoding it produces output in which the
`matchTranslated` tag is present with value `false` — explicitly-false
is not collapsed into absent. -/
theorem claim_C4 :
    decodeEdgeFirewallRule exC4input = Except.ok exC4doc ∧
    exC4doc.MatchTranslated = some false ∧
    ("matchTranslated", "false") ∈ edgeFirewallRuleFields exC4doc ∧
    hasInfix "<matchTranslated>false</matchTranslated>".data
      (encodeEdgeFirewallRule exC4doc).data = true := by
  refine ⟨by decide, rfl, by decide, by decide⟩

/-- Claim C5: encoding the scenario's IP set (name `test-ipset`,
addresses `192.168.1.0/24`, inheritance marker unset, revision unset)
emits no `inheritanceAllowed` and no `revision` tag — neither in the
emitted field list nor anywhere in the output bytes. -/
theorem claim_C5 :
    "inheritanceAllowed" ∉ fieldNames (edgeIpSetFields exC5ipset) ∧
    "revision" ∉ fieldNames (edgeIpSetFields exC5ipset) ∧
    hasInfix "inheritanceAllowed".data (encodeEdgeIpSet exC5ipset).data = false ∧
    hasInfix "revision".data (encodeEdgeIpSet exC5ipset).data = false := by
  refine ⟨by decide, by decide, by decide, by decide⟩

/-- Claim C6: for every `omitempty` string/int field of `LbMonitor` and
`LbPool` (no explicit presence marker), a zero value omits the tag
entirely and a non-zero value always emits it. -/
theorem claim_C6 :
    (∀ m : LbMonitor,
      ("monitorId" ∈ fieldNames (lbMonitorFields m) ↔ ¬ m.ID = "") ∧
      ("interval" ∈ fieldNames (lbMonitorFields m) ↔ ¬ m.Interval = 0) ∧
      ("timeout" ∈ fieldNames (lbMonitorFields m) ↔ ¬ m.Timeout = 0) ∧
      ("maxRetries" ∈ fieldNames (lbMonitorFields m) ↔ ¬ m.MaxRetries = 0) ∧
      ("method" ∈ fieldNames (lbMonitorFields m) ↔ ¬ m.Method = "") ∧
      ("url" ∈ fieldNames (lbMonitorFields m) ↔ ¬ m.URL = "") ∧
      ("expected" ∈ fieldNames (lbMonitorFields m) ↔ ¬ m.Expected = "") ∧
      ("name" ∈ fieldNames (lbMonitorFields m) ↔ ¬ m.Name = "") ∧
      ("send" ∈ fieldNames (lbMonitorFields m) ↔ ¬ m.Send = "") ∧
      ("receive" ∈ fieldNames (lbMonitorFields m) ↔ ¬ m.Receive = "") ∧
      ("extension" ∈ fieldNames (lbMonitorFields m) ↔ ¬ m.Extension = "")) ∧
    (∀ p : LbPool,
      ("poolId" ∈ fieldNames (lbPoolFields p) ↔ ¬ p.ID = "") ∧
      ("description" ∈ fieldNames (lbPoolFields p) ↔ ¬ p.Description = "") ∧
      ("algorithmParameters" ∈ fieldNames (lbPoolFields p) ↔
        ¬ p.AlgorithmParameters = "") ∧
      ("monitorId" ∈ fieldNames (lbPoolFields p) ↔ ¬ p.MonitorId = "")) := by
  constructor
  · intro m
    refine ⟨?_, ?_, ?_, ?_, ?_, ?_, ?_, ?_, ?_, ?_, ?_⟩ <;>
      simp [lbMonitorFields, fieldNames_append, mem_fieldNames_optStrField,
        mem_fieldNames_strField, mem_fieldNames_optIntField]
  · intro p
    refine ⟨?_, ?_, ?_, ?_⟩ <;>
      simp [lbPoolFields, fieldNames_append, mem_fieldNames_optStrField,
        mem_fieldNames_strField, mem_fieldNames_boolField,
        mem_fieldNames_listNestedField]

theorem claim_C6_witness :
    "interval" ∉ fieldNames (lbMonitorFields
      ⟨"", "http", 0, 0, 0, "", "", "", "", "", "", ""⟩) ∧
    "interval" ∈ fieldNames (lbMonitorFields
      ⟨"", "http", 5, 0, 0, "", "", "", "", "", "", ""⟩) ∧
    "description" ∉ fieldNames (lbPoolFields
      ⟨"", "p", "", "round-robin", "", false, "", []⟩) ∧
    "description" ∈ fieldNames (lbPoolFields
      ⟨"", "p", "backup pool", "round-robin", "", false, "", []⟩) :=
  ⟨fun hm => ((claim_C6.1 _).2.1.mp hm) rfl,
    (claim_C6.1 _).2.1.mpr (by decide),
    fun hm => ((claim_C6.2 _).2.1.mp hm) rfl,
    (claim_C6.2 _).2.1.mpr (by decide)⟩

/-- Claim C8: the encoder and decoder are deterministic pure
functions — equal inputs always produce equal outputs (value or
error); in this functional model they have no state to share. -/
theorem claim_C8 :
    (∀ f g : FirewallConfigWithXml, f = g →
      encodeFirewallConfigWithXml f = encodeFirewallConfigWithXml g) ∧
    (∀ s t : String, s = t →
      decodeFirewallConfigWithXml s = decodeFirewallConfigWithXml t) ∧
    (∀ f g : LbGeneralParamsWithXml, f = g →
      encodeLbGeneralParamsWithXml f = encodeLbGeneralParamsWithXml g) ∧
    (∀ s t : String, s = t →
      decodeLbGeneralParamsWithXml s = decodeLbGeneralParamsWithXml t) :=
  ⟨fun _ _ h => by rw [h], fun _ _ h => by rw [h],
    fun _ _ h => by rw [h], fun _ _ h => by rw [h]⟩

theorem claim_C8_witness :
    encodeFirewallConfigWithXml exC10doc = encodeFirewallConfigWithXml exC10doc ∧
    decodeFirewallConfigWithXml exC10input = decodeFirewallConfigWithXml exC10input :=
  ⟨claim_C8.1 exC10doc exC10doc rfl, claim_C8.2.1 exC10input exC10input rfl⟩

/-- Claim C10: the struct-typed `InnerXML` fields `firewallRules` and
`globalConfig` are always emitted — their `omitempty` tag never
suppresses the element, because a struct value is never "empty" — so a
well-formed input lacking those elements decodes successfully but does
not round-trip to itself. -/
theorem claim_C10 :
    (∀ f : FirewallConfigWithXml,
      "firewallRules" ∈ fieldNames (firewallConfigFields f) ∧
      "globalConfig" ∈ fieldNames (firewallConfigFields f)) ∧
    (decodeFirewallConfigWithXml exC10input = Except.ok exC10doc ∧
      encodeFirewallConfigWithXml exC10doc ≠ exC10input) := by
  refine ⟨fun f => ⟨?_, ?_⟩, by decide, by decide⟩ <;>
    simp [firewallConfigFields, fieldNames_append, mem_fieldNames_boolField,
      mem_fieldNames_optStrField, mem_fieldNames_innerField, mem_fieldNames_single,
      mem_fieldNames_cons]

/-- Claim C7: the only decode error value is `MalformedInputError`, and
decode never fails because of unrecognized content inside an opaque
`innerxml` fragment: for every well-formed fragment placed inside
`<pool>` of a load-balancer document or `<firewallRules>` of a firewall
document, decoding succeeds and captures the fragment verbatim, while
an input whose outer tag grammar is violated yields
`MalformedInputError`. -/
theorem claim_C7 :
    (∀ e : DecodeError, e = DecodeError.malformedInput) ∧
    (∀ frag : String, IsWfXmlFragment frag →
      decodeLbGeneralParamsWithXml
        ("<loadBalancer><enabled>true</enabled><accelerationEnabled>false</accelerationEnabled><enableServiceInsertion>false</enableServiceInsertion><pool>" ++ frag ++ "</pool></loadBalancer>")
        = Except.ok ⟨true, false, none, false, "", [], [⟨frag⟩], [], [], []⟩) ∧
    (∀ frag : String, IsWfXmlFragment frag →
      decodeFirewallConfigWithXml
        ("<firewall><enabled>true</enabled><defaultPolicy><loggingEnabled>false</loggingEnabled><action>deny</action></defaultPolicy><firewallRules>" ++ frag ++ "</firewallRules><globalConfig></globalConfig></firewall>")
        = Except.ok ⟨true, ⟨false, "deny"⟩, "", ⟨frag⟩, ⟨""⟩⟩) ∧
    (decodeLbGeneralParamsWithXml "<loadBalancer><enabled>" =
      Except.error DecodeError.malformedInput) := by
  refine ⟨fun e => by cases e; rfl, fun frag hfr => ?_, c7_fw_decode, by decide⟩
  obtain ⟨fr, hwf, hdata⟩ := hfr
  rw [c7_lb_literal frag]
  exact decodeXml_encode "loadBalancer" lbGeneralParamsH LbGeneralParamsWithXml.zero
    ⟨true, false, none, false, "", [], [⟨frag⟩], [], [], []⟩
    [("enabled", "true"), ("accelerationEnabled", "false"),
      ("enableServiceInsertion", "false"), ("pool", frag)]
    (lbGeneralPoolSem frag fr hwf hdata)

theorem claim_C7_witness :
    decodeLbGeneralParamsWithXml
      ("<loadBalancer><enabled>true</enabled><accelerationEnabled>false</accelerationEnabled><enableServiceInsertion>false</enableServiceInsertion><pool>" ++ "<unknownTag><nested>zz</nested></unknownTag>" ++ "</pool></loadBalancer>")
      = Except.ok ⟨true, false, none, false, "", [],
          [⟨"<unknownTag><nested>zz</nested></unknownTag>"⟩], [], [], []⟩ ∧
    decodeFirewallConfigWithXml
      ("<firewall><enabled>true</enabled><defaultPolicy><loggingEnabled>false</loggingEnabled><action>deny</action></defaultPolicy><firewallRules>" ++ "<a>x</a>" ++ "</firewallRules><globalConfig></globalConfig></firewall>")
      = Except.ok ⟨true, ⟨false, "deny"⟩, "", ⟨"<a>x</a>"⟩, ⟨""⟩⟩ :=
  ⟨claim_C7.2.1 "<unknownTag><nested>zz</nested></unknownTag>"
      ⟨Frag.elem "unknownTag"
          (Frag.elem "nested" (Frag.ch 'z' (Frag.ch 'z' Frag.nil)) Frag.nil) Frag.nil,
        by decide, by decide⟩,
    claim_C7.2.2.1 "<a>x</a>"
      ⟨Frag.elem "a" (Frag.ch 'x' Frag.nil) Frag.nil, by decide, by decide⟩⟩

/-- Claim C9, refuting theorem: the sample test-configuration file is
not a well-formed JSON document — the `media` section's last member
(`"mediaName": "uploadedMediaName"`) is followed by a trailing comma,
which the JSON grammar rejects; removing that single comma yields a
well-formed document. -/
theorem claim_C9 :
    jsonWf sampleJson = false ∧ jsonWf sampleJsonFixed = true :=
  ⟨jsonWf_sample, jsonWf_sampleFixed⟩
